import Mathlib

/-!
Verification development for the pycolorecho terminal-styling library.

The embedding models Python strings as lists of characters (`Str`), Python
ints as `Int`, Python floats as exact rationals (`Rat`), and Python
exceptions as the `Except` monad over an explicit error type (`PyErr`).
Every definition is translated from `pycolorecho/__main__.py`; definitions
whose names start with `claim` or `spec` instead follow the wording of the
specification and are compared with the source-derived definitions.
-/

namespace PyColorEcho

/-- Python strings, modelled as lists of characters. -/
abbrev Str := List Char

/-- Converts a Lean string literal into the `Str` model. -/
def strOf (s : String) : Str := s.data

/-- The ASCII escape character ESC, written both as octal 033 and hex 1b in
the Python source; both spellings of the literal denote this character. -/
def escChar : Char := '\x1b'

/-- ASCII decimal digit test, as used by the regex class [0-9]. -/
def isDigitC (c : Char) : Bool := decide (48 ≤ c.toNat ∧ c.toNat ≤ 57)

/-- Hexadecimal digit test, as used by the regex class [0-9a-fA-F]. -/
def isHexDigitC (c : Char) : Bool :=
  decide ((48 ≤ c.toNat ∧ c.toNat ≤ 57) ∨ (97 ≤ c.toNat ∧ c.toNat ≤ 102) ∨
    (65 ≤ c.toNat ∧ c.toNat ≤ 70))

/-- ASCII letter test (Python str.title and friends, ASCII fragment). -/
def isAlphaC (c : Char) : Bool :=
  decide ((65 ≤ c.toNat ∧ c.toNat ≤ 90) ∨ (97 ≤ c.toNat ∧ c.toNat ≤ 122))

/-- Alphanumeric test, the regex class [a-zA-Z0-9] of the case transforms. -/
def isAlnumC (c : Char) : Bool := isDigitC c || isAlphaC c

/-- Whitespace for Python str.split with no argument (ASCII fragment:
tab, newline, vertical tab, form feed, carriage return, FS..US, space). -/
def isSpaceC (c : Char) : Bool :=
  decide ((9 ≤ c.toNat ∧ c.toNat ≤ 13) ∨ (28 ≤ c.toNat ∧ c.toNat ≤ 32))

/-- Python str.upper on one character (ASCII fragment, sufficient for the
ASCII strings handled by the library). -/
def upperChar (c : Char) : Char :=
  if 97 ≤ c.toNat ∧ c.toNat ≤ 122 then Char.ofNat (c.toNat - 32) else c

/-- Python str.lower on one character (ASCII fragment). -/
def lowerChar (c : Char) : Char :=
  if 65 ≤ c.toNat ∧ c.toNat ≤ 90 then Char.ofNat (c.toNat + 32) else c

/-- Python str.upper. -/
def pyUpper (s : Str) : Str := s.map upperChar

/-- Python str.lower. -/
def pyLower (s : Str) : Str := s.map lowerChar

/-- Python str.capitalize: first character upper-cased, the rest lower-cased. -/
def pyCapitalize : Str → Str
  | [] => []
  | c :: cs => upperChar c :: pyLower cs

/-- Python slicing s[a:b] for 0 ≤ a ≤ b. -/
def pySlice (s : Str) (a b : Nat) : Str := (s.drop a).take (b - a)

/-- Python str.lstrip with one strip character: drops every leading copy. -/
def lstripChar (c : Char) (s : Str) : Str := s.dropWhile (fun x => x == c)

/-- Python str.rstrip with one strip character: drops every trailing copy. -/
def rstripChar (c : Char) (s : Str) : Str :=
  ((s.reverse).dropWhile (fun x => x == c)).reverse

/-- Python str.startswith. -/
def startsW : Str → Str → Bool
  | [], _ => true
  | _ :: _, [] => false
  | p :: ps, s :: ss => p == s && startsW ps ss

/-- Python str.split(sep) with a single separator character: empty
segments are kept, so the number of segments is one more than the number
of separators. -/
def splitOnChar (sep : Char) : Str → List Str
  | [] => [[]]
  | c :: rest =>
    if c == sep then [] :: splitOnChar sep rest
    else
      match splitOnChar sep rest with
      | [] => [[c]]
      | h :: t => (c :: h) :: t

/-- Worker for Python str.split() with no argument: accumulates the current
word (reversed) and splits on runs of whitespace, dropping empty words. -/
def splitWsGo : Str → Str → List Str
  | cur, [] => if cur = [] then [] else [cur.reverse]
  | cur, c :: cs =>
    if isSpaceC c then
      if cur = [] then splitWsGo [] cs else cur.reverse :: splitWsGo [] cs
    else splitWsGo (c :: cur) cs

/-- Python str.split() with no argument. -/
def pySplitWs (s : Str) : List Str := splitWsGo [] s

/-- Python sep.join(parts). -/
def joinSep (sep : Str) : List Str → Str
  | [] => []
  | [w] => w
  | w :: ws => w ++ sep ++ joinSep sep ws

mutual

/-- Python re.sub(r'[^K]+', ' ', s) for a character class K: every maximal
run of characters outside the class collapses to a single space. This
function handles a position where the previous character (if any) was kept. -/
def collapseRuns (keep : Char → Bool) : Str → Str
  | [] => []
  | c :: cs =>
    if keep c then c :: collapseRuns keep cs else ' ' :: collapseSkip keep cs

/-- Companion of collapseRuns: inside a run of characters outside the class,
after the single replacement space has been emitted. -/
def collapseSkip (keep : Char → Bool) : Str → Str
  | [] => []
  | c :: cs =>
    if keep c then c :: collapseRuns keep cs else collapseSkip keep cs

end

/-- The character of a single decimal digit, as produced by Python decimal
formatting (only applied to arguments below ten). -/
def digitChar10 (d : Nat) : Char := Char.ofNat (48 + d)

/-- Fuel-driven decimal formatter: prepends the decimal digits of n to acc.
The fuel is an upper bound on the number of divisions; decNat passes n+1,
which always suffices. -/
def decCore : Nat → Nat → Str → Str
  | 0, _, acc => acc
  | fuel + 1, n, acc =>
    let acc1 := digitChar10 (n % 10) :: acc
    if n < 10 then acc1 else decCore fuel (n / 10) acc1

/-- Python decimal formatting of a natural number, as in f-strings. -/
def decNat (n : Nat) : Str := decCore (n + 1) n []

/-- Python decimal formatting of an int, as in f-strings. -/
def decInt (n : Int) : Str :=
  if n < 0 then '-' :: decNat (-n).toNat else decNat n.toNat

/-- Numeric value of a decimal digit character. -/
def decVal (c : Char) : Nat := c.toNat - 48

/-- Python int(s) restricted to nonempty all-digit strings, the only shapes
this code base ever feeds to it; anything else raises ValueError (None). -/
def parseDecNat (s : Str) : Option Nat :=
  if s ≠ [] ∧ s.all isDigitC then
    some (s.foldl (fun a c => a * 10 + decVal c) 0)
  else none

/-- Python int(s) producing an int. -/
def parseDec (s : Str) : Option Int := (parseDecNat s).map Int.ofNat

/-- Numeric value of a hexadecimal digit character, as read by int(s, 16). -/
def hexVal (c : Char) : Nat :=
  if 48 ≤ c.toNat ∧ c.toNat ≤ 57 then c.toNat - 48
  else if 97 ≤ c.toNat ∧ c.toNat ≤ 102 then c.toNat - 87
  else if 65 ≤ c.toNat ∧ c.toNat ≤ 70 then c.toNat - 55
  else 0

/-- Python int(s, 16) restricted to nonempty all-hex-digit strings; anything
else raises ValueError (None). -/
def parseHex (s : Str) : Option Nat :=
  if s ≠ [] ∧ s.all isHexDigitC then
    some (s.foldl (fun a c => a * 16 + hexVal c) 0)
  else none

/-- Lowercase hexadecimal digit character, as produced by the %x format. -/
def hexDigitL (d : Nat) : Char :=
  Char.ofNat (if d < 10 then 48 + d else 87 + d)

/-- Python %02x formatting for values below 256; rgb_to_hex validates the
range 0..255 before formatting, so this is the only range that occurs. -/
def hexFmt2 (n : Nat) : Str :=
  if n < 16 then ['0', hexDigitL n] else [hexDigitL (n / 16), hexDigitL (n % 16)]

/-- Literal-keyword search: does the pattern occur as a substring. A
concrete instance of the abstract matcher parameter, used by witnesses. -/
def hasSubstr (p : Str) : Str → Bool
  | [] => p.isEmpty
  | c :: rest => startsW p (c :: rest) || hasSubstr p rest

/-- Python exceptions raised by this code base. The library signals the
unsupported ANSI-to-color conversions with the distinct Warning class,
not with the ValueError used for ordinary validation failures. -/
inductive PyErr where
  | typeError (msg : String)
  | valueError (msg : String)
  | warning (msg : String)
deriving DecidableEq

/-- Python re.match of the hex pattern r'#[0-9a-fA-F]{6}$' against a whole
string: anchored at the start by re.match and at the end by the dollar,
which in Python also matches just before a single newline that ends the
string. This checks the exact shape with no trailing newline. -/
def hexShape : Str → Bool
  | [] => false
  | c :: rest => c == '#' && rest.length == 6 && rest.all isHexDigitC

/-- Full semantics of re.match(r'#[0-9a-fA-F]{6}$', s): the shape above,
allowing one trailing newline consumed by the dollar anchor. -/
def hexRegexMatch (s : Str) : Bool :=
  hexShape (if s.getLast? == some '\n' then s.dropLast else s)

/-- A character of the regex class [0-9;]. -/
def digitOrSemi (c : Char) : Bool := isDigitC c || c == ';'

/-- Exact shape of the ANSI regex r'^\x1b\[[0-9;]+m$' with no trailing
newline: ESC, an opening bracket, a nonempty body over [0-9;], and m. -/
def ansiShape : Str → Bool
  | e :: br :: rest =>
    e == escChar && br == '[' && rest.getLast? == some 'm' &&
      !rest.dropLast.isEmpty && rest.dropLast.all digitOrSemi
  | _ => false

/-- Full semantics of re.match for the ANSI pattern: the source tests the
two regexes r'^\033\[[0-9;]+m$' and r'^\x1b\[[0-9;]+m$', whose escapes both
denote the same ESC character, so the two tests are equivalent; the dollar
also matches just before a single newline that ends the string. -/
def ansiRegexMatch (s : Str) : Bool :=
  ansiShape (if s.getLast? == some '\n' then s.dropLast else s)

/-- Validate.validate_range: every value must lie within the closed range,
otherwise ValueError with the given message. -/
def validate_range {α : Type} [LE α] [DecidableRel ((· ≤ ·) : α → α → Prop)] (values : List α)
    (lo hi : α) (msg : String) : Except PyErr Unit :=
  if values.all (fun x => decide (lo ≤ x ∧ x ≤ hi)) then pure ()
  else Except.error (PyErr.valueError msg)

/-- Validate.validate_hex: the value upper-cased must match the regex
r'#[0-9a-fA-F]{6}$'. -/
def validate_hex (hex_code : Str) : Except PyErr Unit :=
  if hexRegexMatch (pyUpper hex_code) then pure ()
  else Except.error (PyErr.valueError "Invalid HEX code format. Example: #RRGGBB.")

/-- Validate.validate_rgb: red, green and blue must lie in 0..255. -/
def validate_rgb (r g b : Int) : Except PyErr Unit :=
  validate_range [r, g, b] 0 255
    "Invalid RGB code format. RGB values should be in the range 0-255. Example: 127, 128, 255."

/-- Validate.validate_cmyk: the four components must lie in 0.0..1.0. -/
def validate_cmyk (c m y k : Rat) : Except PyErr Unit :=
  validate_range [c, m, y, k] 0 1
    "Invalid CMYK code format. CMYK values should be in the range 0.0-1.0. Example: 0.7, 0.1, 1.0, 1.0."

/-- Validate.validate_ansi: the string must match the ANSI regex, and
ansi[2:] with every trailing m stripped must start with 38;2; or 48;2; or
consist only of digits (str.isdigit is false on the empty string). -/
def validate_ansi (ansi : Str) : Except PyErr Unit :=
  if !ansiRegexMatch ansi then
    Except.error (PyErr.valueError "Invalid ANSI code format.")
  else
    let code := rstripChar 'm' (ansi.drop 2)
    if !startsW (strOf "38;2;") code && !startsW (strOf "48;2;") code &&
        !(!code.isEmpty && code.all isDigitC) then
      Except.error (PyErr.valueError "Unsupported ANSI code format.")
    else pure ()

/-- The Layer enum: the ANSI Select-Graphic-Rendition family of a color. -/
inductive Layer where
  | Foreground
  | Background
deriving DecidableEq

/-- Layer.value: 38 selects foreground, 48 selects background. -/
def Layer.value : Layer → Nat
  | .Foreground => 38
  | .Background => 48

/-- The reset suffix RESET = ESC[0m. -/
def resetSeq : Str := [escChar, '[', '0', 'm']

/-- Truncation toward zero, the behavior of Python int() on a number. -/
def pyTrunc (q : Rat) : Int := if 0 ≤ q then ⌊q⌋ else -⌊-q⌋

/-- Color.hex_to_rgb: validate, strip leading # and parse the three
two-digit groups with int(_, 16). -/
def hex_to_rgb (hex_code : Str) : Except PyErr (Int × Int × Int) := do
  validate_hex hex_code
  let s := lstripChar '#' hex_code
  match parseHex (pySlice s 0 2), parseHex (pySlice s 2 4), parseHex (pySlice s 4 6) with
  | some r, some g, some b => pure ((r : Int), (g : Int), (b : Int))
  | _, _, _ => Except.error (PyErr.valueError "invalid literal for int() with base 16")

/-- Color.rgb_to_hex: validate, then format with f'#{r:02x}{g:02x}{b:02x}'
and upper-case the result. -/
def rgb_to_hex (r g b : Int) : Except PyErr Str := do
  validate_rgb r g b
  pure (pyUpper ('#' :: (hexFmt2 r.toNat ++ hexFmt2 g.toNat ++ hexFmt2 b.toNat)))

/-- Color.cmyk_to_rgb: validate, then each channel is int(255*(1-x)*(1-k)),
a truncating conversion of the product. -/
def cmyk_to_rgb (c m y k : Rat) : Except PyErr (Int × Int × Int) := do
  validate_cmyk c m y k
  pure (pyTrunc (255 * (1 - c) * (1 - k)),
        pyTrunc (255 * (1 - m) * (1 - k)),
        pyTrunc (255 * (1 - y) * (1 - k)))

/-- Color.rgb_to_cmyk: validate; black maps to (0,0,0,1) directly, every
other color normalizes by the key k = min of the three complements. -/
def rgb_to_cmyk (r g b : Int) : Except PyErr (Rat × Rat × Rat × Rat) := do
  validate_rgb r g b
  if r = 0 ∧ g = 0 ∧ b = 0 then
    pure (0, 0, 0, 1)
  else
    let c : Rat := 1 - (r : Rat) / 255
    let m : Rat := 1 - (g : Rat) / 255
    let y : Rat := 1 - (b : Rat) / 255
    let k : Rat := min c (min m y)
    pure ((c - k) / (1 - k), (m - k) / (1 - k), (y - k) / (1 - k), k)

/-- The fixed table of 16 standard color swatches of
Color._closest_standard_color, in its source ordering. -/
def standardColors : List Str :=
  [strOf "000000", strOf "800000", strOf "008000", strOf "808000",
   strOf "000080", strOf "800080", strOf "008080", strOf "C0C0C0",
   strOf "808080", strOf "FF0000", strOf "00FF00", strOf "FFFF00",
   strOf "0000FF", strOf "FF00FF", strOf "00FFFF", strOf "FFFFFF"]

/-- Color._hex_distance: both arguments must have length 6 (ValueError
otherwise, modelled as none, like a failing int(_, 16) on a bad digit);
the result is the Manhattan distance of the two parsed RGB triples. -/
def hexDistance (hex1 hex2 : Str) : Option Nat :=
  if hex1.length = 6 ∧ hex2.length = 6 then
    match parseHex (pySlice hex1 0 2), parseHex (pySlice hex1 2 4), parseHex (pySlice hex1 4 6),
          parseHex (pySlice hex2 0 2), parseHex (pySlice hex2 2 4), parseHex (pySlice hex2 4 6) with
    | some r1, some g1, some b1, some r2, some g2, some b2 =>
      some (((r1 : Int) - r2).natAbs + ((g1 : Int) - g2).natAbs + ((b1 : Int) - b2).natAbs)
    | _, _, _, _, _, _ => none
  else none

/-- Python min(xs, key=key) on a nonempty list given as head and tail: scans
left to right and keeps the current element unless a strictly smaller key
appears, so the first element with the minimal key wins. -/
def pyMinKey {α : Type} (key : α → Nat) (x : α) (xs : List α) : α :=
  xs.foldl (fun best p => if key p < key best then p else best) x

/-- Python list.index: position of the first occurrence. -/
def pyIndexOf {α : Type} [DecidableEq α] (a : α) : List α → Option Nat
  | [] => none
  | x :: xs =>
    if x = a then some 0 else (pyIndexOf a xs).map (· + 1)

/-- Color._closest_standard_color: the swatch with minimal _hex_distance to
the argument (ties broken by the first occurrence in the table, the
behavior of Python min), then its table index plus 44. A raised exception
inside the key function (none) propagates. -/
def closest_standard_color (code : Str) : Option Nat :=
  if standardColors.all (fun c => (hexDistance code c).isSome) then
    match standardColors with
    | [] => none
    | x :: xs =>
      let chosen := pyMinKey (fun c => (hexDistance code c).getD 0) x xs
      (pyIndexOf chosen standardColors).map (· + 44)
  else none

/-- Color.hex_to_ansi: the true-color path emits ESC[<38|48>;2;r;g;bm; the
standard-color path emits ESC[<closest code + layer value>m. -/
def hex_to_ansi (hex_code : Str) (layer : Layer) (true_color : Bool) :
    Except PyErr Str := do
  validate_hex hex_code
  if true_color then
    let (r, g, b) ← hex_to_rgb hex_code
    pure ([escChar, '['] ++ decNat layer.value ++ [';', '2', ';'] ++
      decInt r ++ [';'] ++ decInt g ++ [';'] ++ decInt b ++ ['m'])
  else
    match closest_standard_color (lstripChar '#' hex_code) with
    | some code => pure ([escChar, '['] ++ decNat (code + layer.value) ++ ['m'])
    | none => Except.error (PyErr.valueError "Hex color values must be of length 6 (excluding # symbol)")

/-- Color.ansi_to_rgb: only the true-color prefixes ESC[38;2; and ESC[48;2;
are convertible; the parameter list after position 7, with trailing m
stripped, splits on semicolons into the three channels. A standard-color
code raises the Warning signal. -/
def ansi_to_rgb (ansi : Str) : Except PyErr (Int × Int × Int) := do
  validate_ansi ansi
  if startsW ([escChar, '[', '3', '8', ';', '2', ';']) ansi ||
      startsW ([escChar, '[', '4', '8', ';', '2', ';']) ansi then
    let code := rstripChar 'm' (ansi.drop 7)
    match splitOnChar ';' code with
    | [sr, sg, sb] =>
      match parseDec sr, parseDec sg, parseDec sb with
      | some r, some g, some b => pure (r, g, b)
      | _, _, _ => Except.error (PyErr.valueError "invalid literal for int() with base 10")
    | _ => Except.error (PyErr.valueError "cannot unpack")
  else
    Except.error (PyErr.warning "Converting ANSI to RGB for standard colors is not currently supported.")

/-- Color.ansi_to_hex: like ansi_to_rgb but finishes through rgb_to_hex;
standard-color codes raise the Warning signal. -/
def ansi_to_hex (ansi : Str) : Except PyErr Str := do
  validate_ansi ansi
  if startsW ([escChar, '[', '3', '8', ';', '2', ';']) ansi ||
      startsW ([escChar, '[', '4', '8', ';', '2', ';']) ansi then
    let code := rstripChar 'm' (ansi.drop 7)
    match splitOnChar ';' code with
    | [sr, sg, sb] =>
      match parseDec sr, parseDec sg, parseDec sb with
      | some r, some g, some b => rgb_to_hex r g b
      | _, _, _ => Except.error (PyErr.valueError "invalid literal for int() with base 10")
    | _ => Except.error (PyErr.valueError "cannot unpack")
  else
    Except.error (PyErr.warning "Converting ANSI to HEX for standard colors is not currently supported.")

/-- Color.rgb_to_ansi: validate, then either the true-color format or the
closest standard color of the equivalent hex code. -/
def rgb_to_ansi (r g b : Int) (layer : Layer) (true_color : Bool) :
    Except PyErr Str := do
  validate_rgb r g b
  if true_color then
    pure ([escChar, '['] ++ decNat layer.value ++ [';', '2', ';'] ++
      decInt r ++ [';'] ++ decInt g ++ [';'] ++ decInt b ++ ['m'])
  else
    let hx ← rgb_to_hex r g b
    match closest_standard_color (lstripChar '#' hx) with
    | some code => pure ([escChar, '['] ++ decNat (code + layer.value) ++ ['m'])
    | none => Except.error (PyErr.valueError "Hex color values must be of length 6 (excluding # symbol)")

/-- Color.ansi_to_cmyk: composes ansi_to_rgb and rgb_to_cmyk; the Warning
raised on a standard-color code is caught and re-raised with the CMYK
message, while other errors propagate unchanged. -/
def ansi_to_cmyk (ansi : Str) : Except PyErr (Rat × Rat × Rat × Rat) :=
  match ansi_to_rgb ansi with
  | Except.ok (r, g, b) => rgb_to_cmyk r g b
  | Except.error (PyErr.warning _) =>
    Except.error (PyErr.warning "Converting ANSI to CMYK for standard colors is not currently supported.")
  | Except.error e => Except.error e

namespace TextCase

/-- TextCase.NONE. -/
def NONE : Nat := 0

/-- TextCase.NO_CAPS. -/
def NO_CAPS : Nat := 10

/-- TextCase.ALL_CAPS. -/
def ALL_CAPS : Nat := 20

/-- TextCase.SMALL_CAPS. -/
def SMALL_CAPS : Nat := 30

/-- TextCase.TITLE_CASE. -/
def TITLE_CASE : Nat := 40

/-- TextCase.SENTENCE_CASE. -/
def SENTENCE_CASE : Nat := 50

/-- TextCase.PASCAL_CASE. -/
def PASCAL_CASE : Nat := 60

/-- TextCase.CAMEL_CASE. -/
def CAMEL_CASE : Nat := 70

/-- TextCase.SNAKE_CASE. -/
def SNAKE_CASE : Nat := 80

/-- TextCase.KEBAB_CASE. -/
def KEBAB_CASE : Nat := 90

/-- TextCase._all_caps. -/
def allCaps (message : Str) : Str := pyUpper message

/-- TextCase._no_caps. -/
def noCaps (message : Str) : Str := pyLower message

/-- The character class kept by the camel-case cleaner, [a-zA-Z0-9_]. -/
def keepCamel (c : Char) : Bool := isAlnumC c || c == '_'

/-- TextCase._camel_case: strip characters outside [a-zA-Z0-9_] by
collapsing runs to one space, split on whitespace, lower-case the first
word and capitalize the rest, joined with no separator. -/
def camelCase (message : Str) : Str :=
  match pySplitWs (collapseRuns keepCamel message) with
  | [] => []
  | w :: ws => pyLower w ++ (ws.map pyCapitalize).flatten

/-- TextCase._kebab_case: strip characters outside [a-zA-Z0-9] by collapsing
runs to one space, split, lower-case every word, join with hyphens. -/
def kebabCase (message : Str) : Str :=
  joinSep ['-'] ((pySplitWs (collapseRuns isAlnumC message)).map pyLower)

/-- TextCase._pascal_case: strip characters outside [a-zA-Z0-9], split,
capitalize every word, join with no separator. -/
def pascalCase (message : Str) : Str :=
  ((pySplitWs (collapseRuns isAlnumC message)).map pyCapitalize).flatten

/-- TextCase._sentence_case, Python str.capitalize. -/
def sentenceCase (message : Str) : Str := pyCapitalize message

/-- TextCase._small_caps: each ASCII lowercase letter is upper-cased and
shifted by 0xFEE0 into the fullwidth block; all else passes through. -/
def smallCaps (message : Str) : Str :=
  message.map (fun c =>
    if 97 ≤ c.toNat ∧ c.toNat ≤ 122 then Char.ofNat (c.toNat - 32 + 0xFEE0) else c)

/-- TextCase._snake_case: like kebab but joined with underscores. -/
def snakeCase (message : Str) : Str :=
  joinSep ['_'] ((pySplitWs (collapseRuns isAlnumC message)).map pyLower)

/-- Worker for Python str.title (ASCII fragment): a letter is upper-cased
when the previous character was not a letter, lower-cased otherwise. -/
def titleGo : Bool → Str → Str
  | _, [] => []
  | prevAlpha, c :: cs =>
    if isAlphaC c then
      (if prevAlpha then lowerChar c else upperChar c) :: titleGo true cs
    else c :: titleGo false cs

/-- TextCase._title_case, Python str.title. -/
def titleCase (message : Str) : Str := titleGo false message

/-- TextCase.convert_text: dispatch on the case constant; unrecognized
values pass the message through unchanged. -/
def convert_text (message : Str) (text_case : Nat) : Str :=
  if text_case = ALL_CAPS then allCaps message
  else if text_case = CAMEL_CASE then camelCase message
  else if text_case = KEBAB_CASE then kebabCase message
  else if text_case = NONE then message
  else if text_case = NO_CAPS then noCaps message
  else if text_case = PASCAL_CASE then pascalCase message
  else if text_case = SENTENCE_CASE then sentenceCase message
  else if text_case = SMALL_CAPS then smallCaps message
  else if text_case = SNAKE_CASE then snakeCase message
  else if text_case = TITLE_CASE then titleCase message
  else message

end TextCase

/-- The color_mapping dictionary stored by ColorMapper.add_mapping: the
three optional ANSI style strings and the text case constant. -/
structure ColorMapping where
  text_color : Option Str
  text_background_color : Option Str
  text_effect : Option Str
  text_case : Nat
deriving DecidableEq

/-- The flags dictionary stored by ColorMapper.add_mapping. -/
structure MapFlags where
  ignore_case : Bool
  color_match : Bool
deriving DecidableEq

/-- One value of the ColorMapper dictionary: keyword patterns, style and
flags. -/
structure Mapping where
  keywords : List Str
  color_mapping : ColorMapping
  flags : MapFlags
deriving DecidableEq

/-- ColorMapper: a dictionary from uppercased rule name to mapping, in
insertion order like a Python dict. -/
structure ColorMapper where
  mappings : List (Str × Mapping)
deriving DecidableEq

/-- Replaces the value of an existing key in place, like assignment to a
present dict key. -/
def updateAssoc (key : Str) (v : Mapping) :
    List (Str × Mapping) → List (Str × Mapping)
  | [] => []
  | (k, w) :: rest =>
    if k = key then (k, v) :: rest else (k, w) :: updateAssoc key v rest

/-- ColorMapper.add_mapping: upserts by the upper-cased name; a string
keyword becomes a one-element list at the call boundary, so keywords arrive
here already normalized to a list. -/
def add_mapping (m : ColorMapper) (name : Str) (keywords : List Str)
    (cmap : ColorMapping) (flags : MapFlags) : ColorMapper :=
  let key := pyUpper name
  let value : Mapping := { keywords := keywords, color_mapping := cmap, flags := flags }
  if (m.mappings.map Prod.fst).contains key then
    { mappings := updateAssoc key value m.mappings }
  else
    { mappings := m.mappings ++ [(key, value)] }

/-- ColorMapper.get_mapping: lookup by upper-cased name, ValueError when
absent. -/
def get_mapping (m : ColorMapper) (name : Str) : Except PyErr Mapping :=
  match m.mappings.lookup (pyUpper name) with
  | some v => pure v
  | none => Except.error (PyErr.valueError "mapping not found.")

/-- ColorMapper.remove_mapping: deletes the upper-cased name when present,
otherwise does nothing. -/
def remove_mapping (m : ColorMapper) (name : Str) : ColorMapper :=
  { mappings := m.mappings.filter (fun p => p.1 ≠ pyUpper name) }

/-- Strict lexicographic comparison of strings by code point, the Python
string less-than used by sorted. -/
def strLtB : Str → Str → Bool
  | [], [] => false
  | [], _ :: _ => true
  | _ :: _, [] => false
  | a :: as_, b :: bs =>
    if a.toNat < b.toNat then true
    else if b.toNat < a.toNat then false
    else strLtB as_ bs

/-- The sorting relation of dict(sorted(mappings.items())): compare entries
by name. Python compares the tuples, but reaches the values only when two
names are equal, which cannot happen among dict keys. -/
def nameLe (a b : Str × Mapping) : Prop := strLtB a.1 b.1 = true ∨ a.1 = b.1

instance : DecidableRel nameLe := fun a b =>
  inferInstanceAs (Decidable (strLtB a.1 b.1 = true ∨ a.1 = b.1))

/-- ColorMapper.get_mappings: the entries sorted lexicographically by
(uppercased, as stored) name. -/
def get_mappings (m : ColorMapper) : List (Str × Mapping) :=
  List.insertionSort nameLe m.mappings

/-- _get_colorize_sequence: concatenation of the three optional style
strings; absent parts contribute nothing. -/
def get_colorize_sequence (text_color text_background_color text_effect :
    Option Str) : Str :=
  text_color.getD [] ++ text_background_color.getD [] ++ text_effect.getD []

/-- _get_colorized_message (plain mode): with no style at all only the
case-transformed message, and no reset; otherwise sequence, transformed
message and reset. -/
def get_colorized_message (message : Str) (text_color text_background_color
    text_effect : Option Str) (text_case : Nat) : Str :=
  if text_color = none ∧ text_background_color = none ∧ text_effect = none then
    TextCase.convert_text message text_case
  else
    get_colorize_sequence text_color text_background_color text_effect ++
      TextCase.convert_text message text_case ++ resetSeq

/-- The style application of a matched keyword inside
_get_colorized_message_by_mappings: with color_match every match occurrence
is replaced by sequence, transformed match and reset; otherwise the whole
current message is wrapped once, with the reset appended unconditionally.
The regex engine enters through subAll, which takes the ignore_case flag,
the pattern, the replacement function applied to each match and the
message, mirroring re.sub. -/
def applyMappingStyle (subAll : Bool → Str → (Str → Str) → Str → Str)
    (v : Mapping) (ic : Bool) (kw : Str) (msg : Str) : Str :=
  let cm := v.color_mapping
  let seq := get_colorize_sequence cm.text_color cm.text_background_color cm.text_effect
  if v.flags.color_match then
    subAll ic kw (fun mt => seq ++ TextCase.convert_text mt cm.text_case ++ resetSeq) msg
  else
    seq ++ TextCase.convert_text msg cm.text_case ++ resetSeq

/-- The inner keyword loop of _get_colorized_message_by_mappings: keywords
are tried in list order; the first match applies the style and breaks out
of the loop; no match leaves the message unchanged. The regex engine enters
through search (ignore_case flag, pattern, message), mirroring re.search. -/
def scanKeywords (search : Bool → Str → Str → Bool)
    (subAll : Bool → Str → (Str → Str) → Str → Str)
    (v : Mapping) (msg : Str) : List Str → Str
  | [] => msg
  | kw :: rest =>
    if v.flags.ignore_case then
      if search true kw msg then applyMappingStyle subAll v true kw msg
      else scanKeywords search subAll v msg rest
    else
      if search false kw msg then applyMappingStyle subAll v false kw msg
      else scanKeywords search subAll v msg rest

/-- _get_colorized_message_by_mappings: fold the sorted rules over the
message; every rule sees the message as restyled by the earlier rules. -/
def get_colorized_message_by_mappings (search : Bool → Str → Str → Bool)
    (subAll : Bool → Str → (Str → Str) → Str → Str)
    (message : Str) (mappings : ColorMapper) : Str :=
  (get_mappings mappings).foldl
    (fun cur entry => scanKeywords search subAll entry.2 cur entry.2.keywords)
    message

instance {ε α : Type} [DecidableEq ε] [DecidableEq α] :
    DecidableEq (Except ε α) := fun a b =>
  match a, b with
  | Except.ok x, Except.ok y =>
    if h : x = y then isTrue (by rw [h])
    else isFalse (fun hh => by cases hh; exact h rfl)
  | Except.error e, Except.error f =>
    if h : e = f then isTrue (by rw [h])
    else isFalse (fun hh => by cases hh; exact h rfl)
  | Except.ok _, Except.error _ => isFalse (fun hh => by cases hh)
  | Except.error _, Except.ok _ => isFalse (fun hh => by cases hh)

/-- Decimal digit string of a natural number, highest digit first; the
recursive reference shape of the fuel-driven decCore. -/
def decDigits (n : Nat) : Str :=
  if n < 10 then [digitChar10 n]
  else decDigits (n / 10) ++ [digitChar10 (n % 10)]
decreasing_by exact Nat.div_lt_self (by omega) (by omega)

/-- Claim-side acceptance condition of the ANSI validation gate, following
the wording of the specification: the string matches ESC, an opening
bracket, one or more characters of [0-9;] and m, and the parameter body is
all digits or begins with 38;2; or 48;2;. -/
def claimAccepts (s : Str) : Bool :=
  match s with
  | e :: br :: rest =>
    e == escChar && br == '[' && rest.getLast? == some 'm' &&
      !rest.dropLast.isEmpty && rest.dropLast.all digitOrSemi &&
      (rest.dropLast.all isDigitC || startsW (strOf "38;2;") rest.dropLast ||
        startsW (strOf "48;2;") rest.dropLast)
  | _ => false

/-- Claim-side rule application for rule-table mode, following the wording
of the specification: the first keyword pattern in list order that matches
the current message applies the rule style, and the remaining keywords of
the rule are not tried; no match leaves the message untouched. -/
def applyRuleFirstMatch (search : Bool → Str → Str → Bool)
    (subAll : Bool → Str → (Str → Str) → Str → Str)
    (entry : Str × Mapping) (msg : Str) : Str :=
  let v := entry.2
  match v.keywords.find? (fun kw => search v.flags.ignore_case kw msg) with
  | none => msg
  | some kw => applyMappingStyle subAll v v.flags.ignore_case kw msg

/-- RGB triple read off a six-digit hex string by pairs; total helper used
to state distances (callers establish validity separately). -/
def hexRGBvals (s : Str) : Int × Int × Int :=
  (((pySlice s 0 2).foldl (fun a c => a * 16 + hexVal c) 0 : Nat),
   ((pySlice s 2 4).foldl (fun a c => a * 16 + hexVal c) 0 : Nat),
   ((pySlice s 4 6).foldl (fun a c => a * 16 + hexVal c) 0 : Nat))

/-- Claim-side Manhattan distance in RGB space between two six-digit hex
strings. -/
def specDist (a b : Str) : Nat :=
  ((hexRGBvals a).1 - (hexRGBvals b).1).natAbs +
    ((hexRGBvals a).2.1 - (hexRGBvals b).2.1).natAbs +
    ((hexRGBvals a).2.2 - (hexRGBvals b).2.2).natAbs

/-- The strict name order underlying the sorted traversal of rules. -/
def nameLt (a b : Str × Mapping) : Prop := strLtB a.1 b.1 = true


theorem toNat_ofNat_small {n : Nat} (h : n < 55296) : (Char.ofNat n).toNat = n := by
  simp [Char.ofNat, Nat.isValidChar, h, Char.toNat, Char.ofNatAux, UInt32.toNat, UInt32.ofNat']

theorem charToNat_inj {a b : Char} (h : a.toNat = b.toNat) : a = b :=
  Char.ext (UInt32.toNat.inj h)

theorem digitChar10_toNat {d : Nat} (h : d < 10) : (digitChar10 d).toNat = 48 + d :=
  toNat_ofNat_small (by omega)

theorem isDigitC_digitChar10 {d : Nat} (h : d < 10) : isDigitC (digitChar10 d) = true := by
  simp [isDigitC, digitChar10_toNat h]; omega

theorem decVal_digitChar10 {d : Nat} (h : d < 10) : decVal (digitChar10 d) = d := by
  simp [decVal, digitChar10_toNat h]

theorem decDigits_unfold (n : Nat) : decDigits n =
    if n < 10 then [digitChar10 n] else decDigits (n / 10) ++ [digitChar10 (n % 10)] := by
  rw [decDigits]

theorem decCore_eq_decDigits (n : Nat) : ∀ fuel acc, n < fuel →
    decCore fuel n acc = decDigits n ++ acc := by
  induction n using Nat.strong_induction_on with
  | _ n ih =>
    intro fuel acc hfuel
    match fuel with
    | 0 => omega
    | f + 1 =>
      rw [decCore, decDigits_unfold n]
      by_cases h10 : n < 10
      · simp [h10, Nat.mod_eq_of_lt h10]
      · simp only [h10, if_neg, if_false]
        rw [ih (n / 10) (Nat.div_lt_self (by omega) (by omega)) f _ (by
          have := Nat.div_lt_self (show 0 < n by omega) (show 1 < 10 by omega)
          omega)]
        simp

theorem decNat_eq_decDigits (n : Nat) : decNat n = decDigits n := by
  rw [decNat, decCore_eq_decDigits n (n + 1) [] (by omega), List.append_nil]

theorem decDigits_ne_nil (n : Nat) : decDigits n ≠ [] := by
  rw [decDigits_unfold]
  by_cases h : n < 10 <;> simp [h]

theorem decDigits_all_digit (n : Nat) : ∀ c ∈ decDigits n, isDigitC c = true := by
  induction n using Nat.strong_induction_on with
  | _ n ih =>
    rw [decDigits_unfold]
    by_cases h : n < 10
    · simp [h, isDigitC_digitChar10 h]
    · simp only [h, if_false, List.mem_append, List.mem_singleton]
      intro c hc
      rcases hc with hc | hc
      · exact ih (n / 10) (Nat.div_lt_self (by omega) (by omega)) c hc
      · subst hc; exact isDigitC_digitChar10 (Nat.mod_lt n (by omega))

theorem parse_decDigits (n : Nat) : ∀ a : Nat,
    (decDigits n).foldl (fun x c => x * 10 + decVal c) a =
      a * 10 ^ (decDigits n).length + n := by
  induction n using Nat.strong_induction_on with
  | _ n ih =>
    intro a
    rw [decDigits_unfold]
    by_cases h : n < 10
    · simp [h, decVal_digitChar10 h]
    · simp only [h, if_false, List.foldl_append, List.length_append]
      rw [ih (n / 10) (Nat.div_lt_self (by omega) (by omega)) a]
      simp only [List.foldl_cons, List.foldl_nil, List.length_cons, List.length_nil]
      rw [decVal_digitChar10 (Nat.mod_lt n (by omega))]
      have hdm := Nat.div_add_mod n 10
      ring_nf
      omega

theorem parseDecNat_decNat (n : Nat) : parseDecNat (decNat n) = some n := by
  rw [decNat_eq_decDigits, parseDecNat]
  rw [if_pos ⟨decDigits_ne_nil n, List.all_eq_true.mpr (decDigits_all_digit n)⟩]
  rw [parse_decDigits n 0]
  simp

theorem parseDec_decNat (n : Nat) : parseDec (decNat n) = some (n : Int) := by
  rw [parseDec, parseDecNat_decNat]; rfl

theorem hexVal_lt {c : Char} (h : isHexDigitC c = true) : hexVal c < 16 := by
  simp [isHexDigitC] at h
  unfold hexVal
  rcases h with h | h | h
  · simp only [h, and_self, if_pos]; omega
  · have h1 : ¬ (48 ≤ c.toNat ∧ c.toNat ≤ 57) := by omega
    simp only [h1, if_false, h, and_self, if_pos]; omega
  · have h1 : ¬ (48 ≤ c.toNat ∧ c.toNat ≤ 57) := by omega
    have h2 : ¬ (97 ≤ c.toNat ∧ c.toNat ≤ 102) := by omega
    simp only [h1, h2, if_false, h, and_self, if_pos]; omega

theorem parseHex_pair {c1 c2 : Char} (h1 : isHexDigitC c1 = true)
    (h2 : isHexDigitC c2 = true) :
    parseHex [c1, c2] = some (16 * hexVal c1 + hexVal c2) := by
  simp [parseHex, h1, h2]; omega

theorem startsW_append (p rest : Str) : startsW p (p ++ rest) = true := by
  induction p with
  | nil => rfl
  | cons c cs ih => simp [startsW, ih]

theorem splitOnChar_no_sep {sep : Char} : ∀ {a : Str}, sep ∉ a →
    splitOnChar sep a = [a] := by
  intro a
  induction a with
  | nil => intro _; rfl
  | cons c cs ih =>
    intro h
    have hc : ¬ (c == sep) = true := by
      simp only [List.mem_cons, not_or] at h
      simp only [beq_iff_eq]
      exact fun hh => h.1 hh.symm
    rw [splitOnChar, if_neg hc, ih (by intro hm; exact h (List.mem_cons_of_mem c hm))]

theorem splitOnChar_append_sep {sep : Char} : ∀ {a rest : Str}, sep ∉ a →
    splitOnChar sep (a ++ sep :: rest) = a :: splitOnChar sep rest := by
  intro a
  induction a with
  | nil => intro rest _; simp [splitOnChar]
  | cons c cs ih =>
    intro rest h
    have hc : ¬ (c == sep) = true := by
      simp only [List.mem_cons, not_or] at h
      simp only [beq_iff_eq]
      exact fun hh => h.1 hh.symm
    rw [List.cons_append, splitOnChar, if_neg hc,
      ih (by intro hm; exact h (List.mem_cons_of_mem c hm))]

theorem rstrip_concat {c d : Char} {xs : Str} (hlast : xs.getLast? = some d)
    (hne : d ≠ c) : rstripChar c (xs ++ [c]) = xs := by
  unfold rstripChar
  rw [List.reverse_append]
  simp only [List.reverse_cons, List.reverse_nil, List.nil_append, List.singleton_append]
  rw [List.dropWhile_cons_of_pos (by simp)]
  have : xs.reverse.dropWhile (fun x => x == c) = xs.reverse := by
    match hrev : xs.reverse with
    | [] => rfl
    | y :: ys =>
      have : xs.getLast? = some y := by
        rw [← List.head?_reverse, hrev]; rfl
      rw [hlast] at this
      injection this with hy
      rw [List.dropWhile_cons_of_neg (by simp [← hy, hne])]
  rw [this, List.reverse_reverse]


theorem validate_cmyk_ok {c m y k : Rat} (hc : 0 ≤ c ∧ c ≤ 1) (hm : 0 ≤ m ∧ m ≤ 1)
    (hy : 0 ≤ y ∧ y ≤ 1) (hk : 0 ≤ k ∧ k ≤ 1) : validate_cmyk c m y k = pure () := by
  simp [validate_cmyk, validate_range, hc, hm, hy, hk]

theorem validate_rgb_ok {r g b : Int} (hr : 0 ≤ r ∧ r ≤ 255) (hg : 0 ≤ g ∧ g ≤ 255)
    (hb : 0 ≤ b ∧ b ≤ 255) : validate_rgb r g b = pure () := by
  simp [validate_rgb, validate_range, hr, hg, hb]

theorem semiNotDigit : (';').toNat = 59 := by decide

theorem startsW_standard_false {p1 p2 : Char} (rest2 : Str) {body : Str}
    (h2 : ∀ c ∈ body, isDigitC c = true)
    (hp1 : isDigitC p1 = true) (hp2 : isDigitC p2 = true) :
    startsW (p1 :: p2 :: ';' :: rest2) (body ++ ['m']) = false := by
  match body with
  | [] =>
    have : ¬(p1 == 'm') = true := by
      simp only [beq_iff_eq]
      intro h
      rw [h] at hp1
      simp [isDigitC] at hp1
    simp [startsW, this]
  | [b1] =>
    have : ¬(p2 == 'm') = true := by
      simp only [beq_iff_eq]
      intro h
      rw [h] at hp2
      simp [isDigitC] at hp2
    simp [startsW, this]
  | [b1, b2] =>
    simp [startsW]
  | b1 :: b2 :: b3 :: rest =>
    have hd : isDigitC b3 = true := h2 b3 (by simp)
    have : ¬((';' : Char) == b3) = true := by
      simp only [beq_iff_eq]
      intro h
      rw [← h] at hd
      simp [isDigitC] at hd
    simp [startsW, this]

theorem startsW_standard_false_nom {p1 p2 : Char} (rest2 : Str) {body : Str}
    (h2 : ∀ c ∈ body, isDigitC c = true) :
    startsW (p1 :: p2 :: ';' :: rest2) body = false := by
  match body with
  | [] => rfl
  | [b1] => simp [startsW]
  | [b1, b2] => simp [startsW]
  | b1 :: b2 :: b3 :: rest =>
    have hd : isDigitC b3 = true := h2 b3 (by simp)
    have : ¬((';' : Char) == b3) = true := by
      simp only [beq_iff_eq]
      intro h
      rw [← h] at hd
      simp [isDigitC] at hd
    simp [startsW, this]

theorem digit_ne_m {d : Char} (hd : isDigitC d = true) : d ≠ 'm' := by
  intro h
  rw [h] at hd
  simp [isDigitC] at hd

theorem validate_ansi_digits {body : Str} (h1 : body ≠ [])
    (h2 : ∀ c ∈ body, isDigitC c = true) :
    validate_ansi (escChar :: '[' :: body ++ ['m']) = pure () := by
  obtain ⟨front, d, hfd⟩ : ∃ front d, body = front ++ [d] := by
    rcases List.eq_nil_or_concat body with h | ⟨front, d, h⟩
    · exact absurd h h1
    · exact ⟨front, d, by simpa [List.concat_eq_append] using h⟩
  have hdm : body.getLast? = some d := by rw [hfd]; exact List.getLast?_concat front
  have hdd : isDigitC d = true := h2 d (by rw [hfd]; simp)
  have hlast : (escChar :: '[' :: body ++ ['m']).getLast? = some 'm' := by
    show ((escChar :: '[' :: body) ++ ['m']).getLast? = some 'm'
    exact List.getLast?_concat _
  have hbody : body.isEmpty = false := by
    cases body with
    | nil => exact absurd rfl h1
    | cons a l => rfl
  have hmatch : ansiRegexMatch (escChar :: '[' :: body ++ ['m']) = true := by
    rw [ansiRegexMatch, hlast]
    rw [if_neg (by decide)]
    show (escChar == escChar && ('[' == '[') && ((body ++ ['m']).getLast? == some 'm') &&
      !(body ++ ['m']).dropLast.isEmpty && (body ++ ['m']).dropLast.all digitOrSemi) = true
    simp only [List.dropLast_concat, List.getLast?_concat, beq_self_eq_true,
      Bool.true_and, Bool.and_eq_true, Bool.not_eq_true', List.all_eq_true]
    refine ⟨hbody, ?_⟩
    intro c hc
    simp [digitOrSemi, h2 c hc]
  have hcode : rstripChar 'm' (body ++ ['m']) = body :=
    rstrip_concat hdm (digit_ne_m hdd)
  have hdrop : (escChar :: '[' :: body ++ ['m']).drop 2 = body ++ ['m'] := rfl
  rw [validate_ansi, hmatch]
  simp only [Bool.not_true, if_false, Bool.false_eq_true, hdrop, hcode]
  rw [if_neg ?hcond]
  case hcond =>
    have hdig : (!(body.isEmpty) && body.all isDigitC) = true := by
      rw [hbody]
      simp [List.all_eq_true.mpr h2]
    rw [hdig]
    simp



theorem hexFmt2_lt256 {n : Nat} (h : n < 256) :
    hexFmt2 n = [hexDigitL (n / 16), hexDigitL (n % 16)] := by
  rw [hexFmt2]
  by_cases h16 : n < 16
  · rw [if_pos h16]
    have h1 : n / 16 = 0 := by omega
    have h2 : n % 16 = n := by omega
    rw [h1, h2]
    rfl
  · rw [if_neg h16]

theorem hexUp_facts : ∀ d : Fin 16,
    isHexDigitC (upperChar (hexDigitL d.val)) = true
    ∧ hexVal (upperChar (hexDigitL d.val)) = d.val
    ∧ ((upperChar (hexDigitL d.val)) == '#') = false
    ∧ ((upperChar (hexDigitL d.val)) == '\n') = false
    ∧ upperChar (upperChar (hexDigitL d.val)) = upperChar (hexDigitL d.val) := by
  decide

theorem ofNat_toNat_char {c : Char} (h : c.toNat < 55296) : Char.ofNat c.toNat = c :=
  charToNat_inj (toNat_ofNat_small h)

theorem isHexDigitC_cases {c : Char} (h : isHexDigitC c = true) :
    (48 ≤ c.toNat ∧ c.toNat ≤ 57) ∨ (97 ≤ c.toNat ∧ c.toNat ≤ 102) ∨
      (65 ≤ c.toNat ∧ c.toNat ≤ 70) := by
  simpa [isHexDigitC] using h

theorem upperChar_hex (c : Char) (h : isHexDigitC c = true) :
    isHexDigitC (upperChar c) = true
    ∧ ((upperChar c) == '\n') = false
    ∧ ((upperChar c) == '#') = false := by
  rcases isHexDigitC_cases h with hr | hr | hr
  all_goals {
    rw [upperChar]
    first
    | (rw [if_neg (by omega)]
       refine ⟨by simp [isHexDigitC]; omega, ?_, ?_⟩ <;>
         (simp only [beq_eq_false_iff_ne, ne_eq]; intro he; rw [he] at hr; simp at hr <;> omega))
    | (rw [if_pos (by omega)]
       have ht : (Char.ofNat (c.toNat - 32)).toNat = c.toNat - 32 :=
         toNat_ofNat_small (by omega)
       refine ⟨by simp [isHexDigitC, ht]; omega, ?_, ?_⟩ <;>
         (simp only [beq_eq_false_iff_ne, ne_eq]; intro he; rw [he] at ht; simp at ht <;> omega))
  }

theorem upperHex_eq {c : Char} (h : isHexDigitC c = true) :
    upperChar (hexDigitL (hexVal c)) = upperChar c := by
  rcases isHexDigitC_cases h with hr | hr | hr
  · have hv : hexVal c = c.toNat - 48 := by rw [hexVal, if_pos hr]
    have : hexDigitL (hexVal c) = c := by
      rw [hexDigitL, hv, if_pos (by omega), show 48 + (c.toNat - 48) = c.toNat by omega]
      exact ofNat_toNat_char (by omega)
    rw [this]
  · have hv : hexVal c = c.toNat - 87 := by
      rw [hexVal, if_neg (by omega), if_pos hr]
    have : hexDigitL (hexVal c) = c := by
      rw [hexDigitL, hv, if_neg (by omega), show 87 + (c.toNat - 87) = c.toNat by omega]
      exact ofNat_toNat_char (by omega)
    rw [this]
  · have hv : hexVal c = c.toNat - 55 := by
      rw [hexVal, if_neg (by omega), if_neg (by omega), if_pos hr]
    have hL : hexDigitL (hexVal c) = Char.ofNat (c.toNat + 32) := by
      rw [hexDigitL, hv, if_neg (by omega), show 87 + (c.toNat - 55) = c.toNat + 32 by omega]
    have ht : (Char.ofNat (c.toNat + 32)).toNat = c.toNat + 32 :=
      toNat_ofNat_small (by omega)
    rw [hL, upperChar, if_pos (by omega)]
    rw [ht, show c.toNat + 32 - 32 = c.toNat by omega, ofNat_toNat_char (by omega)]
    rw [upperChar, if_neg (by omega)]

theorem hexdigit_ne_hash {c : Char} (h : isHexDigitC c = true) : (c == '#') = false := by
  simp only [beq_eq_false_iff_ne, ne_eq]
  intro he
  rw [he] at h
  simp [isHexDigitC] at h

theorem validate_hex_sixdigits {c1 c2 c3 c4 c5 c6 : Char}
    (h1 : isHexDigitC c1 = true) (h2 : isHexDigitC c2 = true)
    (h3 : isHexDigitC c3 = true) (h4 : isHexDigitC c4 = true)
    (h5 : isHexDigitC c5 = true) (h6 : isHexDigitC c6 = true) :
    validate_hex ['#', c1, c2, c3, c4, c5, c6] = pure () := by
  rw [validate_hex]
  have hup : pyUpper ['#', c1, c2, c3, c4, c5, c6] =
      ['#', upperChar c1, upperChar c2, upperChar c3, upperChar c4, upperChar c5,
        upperChar c6] := by
    simp [pyUpper]
    decide
  rw [if_pos ?hcond]
  case hcond =>
    rw [hexRegexMatch, hup]
    have hlast : (['#', upperChar c1, upperChar c2, upperChar c3, upperChar c4, upperChar c5,
        upperChar c6] : Str).getLast? = some (upperChar c6) := rfl
    rw [hlast]
    rw [if_neg (by
      simp only [beq_iff_eq, Option.some.injEq]
      intro he
      have := (upperChar_hex c6 h6).2.1
      rw [he] at this
      simp at this)]
    simp [hexShape, (upperChar_hex c1 h1).1, (upperChar_hex c2 h2).1,
      (upperChar_hex c3 h3).1, (upperChar_hex c4 h4).1, (upperChar_hex c5 h5).1,
      (upperChar_hex c6 h6).1]


theorem hex_to_rgb_sixdigits {c1 c2 c3 c4 c5 c6 : Char}
    (h1 : isHexDigitC c1 = true) (h2 : isHexDigitC c2 = true)
    (h3 : isHexDigitC c3 = true) (h4 : isHexDigitC c4 = true)
    (h5 : isHexDigitC c5 = true) (h6 : isHexDigitC c6 = true) :
    hex_to_rgb ['#', c1, c2, c3, c4, c5, c6] = Except.ok
      (((16 * hexVal c1 + hexVal c2 : Nat) : Int),
       ((16 * hexVal c3 + hexVal c4 : Nat) : Int),
       ((16 * hexVal c5 + hexVal c6 : Nat) : Int)) := by
  rw [hex_to_rgb, validate_hex_sixdigits h1 h2 h3 h4 h5 h6]
  have hstrip : lstripChar '#' ['#', c1, c2, c3, c4, c5, c6] = [c1, c2, c3, c4, c5, c6] := by
    rw [lstripChar]
    rw [List.dropWhile_cons_of_pos (by simp)]
    exact List.dropWhile_cons_of_neg (by simp [hexdigit_ne_hash h1])
  show (match parseHex (pySlice (lstripChar '#' ['#', c1, c2, c3, c4, c5, c6]) 0 2),
      parseHex (pySlice (lstripChar '#' ['#', c1, c2, c3, c4, c5, c6]) 2 4),
      parseHex (pySlice (lstripChar '#' ['#', c1, c2, c3, c4, c5, c6]) 4 6) with
    | some r, some g, some b => pure ((r : Int), (g : Int), (b : Int))
    | _, _, _ => Except.error (PyErr.valueError "invalid literal for int() with base 16")) = _
  rw [hstrip]
  have s1 : pySlice [c1, c2, c3, c4, c5, c6] 0 2 = [c1, c2] := rfl
  have s2 : pySlice [c1, c2, c3, c4, c5, c6] 2 4 = [c3, c4] := rfl
  have s3 : pySlice [c1, c2, c3, c4, c5, c6] 4 6 = [c5, c6] := rfl
  rw [s1, s2, s3, parseHex_pair h1 h2, parseHex_pair h3 h4, parseHex_pair h5 h6]
  rfl

theorem hexUp_facts_of {d : Nat} (h : d < 16) :
    isHexDigitC (upperChar (hexDigitL d)) = true
    ∧ hexVal (upperChar (hexDigitL d)) = d := by
  have hf := hexUp_facts ⟨d, h⟩
  exact ⟨hf.1, hf.2.1⟩

theorem exceptBind_pure {ε α β : Type} (a : α) (f : α → Except ε β) :
    Except.bind (pure a) f = f a := rfl


theorem decNat_ne_nil (n : Nat) : decNat n ≠ [] := by
  rw [decNat_eq_decDigits]; exact decDigits_ne_nil n

theorem decNat_all_digit (n : Nat) : ∀ c ∈ decNat n, isDigitC c = true := by
  rw [decNat_eq_decDigits]; exact decDigits_all_digit n

theorem digit_ne_semi {c : Char} (h : isDigitC c = true) : c ≠ ';' := by
  intro he
  rw [he] at h
  simp [isDigitC] at h

theorem semi_not_mem_decNat (n : Nat) : ';' ∉ decNat n := by
  intro hm
  exact digit_ne_semi (decNat_all_digit n ';' hm) rfl

theorem decNat_getLast_digit (n : Nat) :
    ∃ d, (decNat n).getLast? = some d ∧ isDigitC d = true := by
  obtain ⟨front, d, hfd⟩ : ∃ front d, decNat n = front ++ [d] := by
    rcases List.eq_nil_or_concat (decNat n) with h | ⟨front, d, h⟩
    · exact absurd h (decNat_ne_nil n)
    · exact ⟨front, d, by simpa [List.concat_eq_append] using h⟩
  refine ⟨d, ?_, ?_⟩
  · rw [hfd]; exact List.getLast?_concat front
  · exact decNat_all_digit n d (by rw [hfd]; simp)

theorem bind_ok {ε α β : Type} (a : α) (f : α → Except ε β) :
    (Except.ok a : Except ε α) >>= f = f a := rfl

theorem validate_ansi_tc {p : Char} (hp : p = '3' ∨ p = '4') {tail : Str}
    (ht1 : tail ≠ []) (ht2 : ∀ c ∈ tail, digitOrSemi c = true)
    (ht3 : ∃ d, tail.getLast? = some d ∧ isDigitC d = true) :
    validate_ansi (escChar :: '[' :: p :: '8' :: ';' :: '2' :: ';' :: tail ++ ['m'])
      = pure () := by
  obtain ⟨d, hdl, hdd⟩ := ht3
  have hblast : (p :: '8' :: ';' :: '2' :: ';' :: tail).getLast? = some d := by
    show ([p, '8', ';', '2', ';'] ++ tail).getLast? = some d
    rw [List.getLast?_append, hdl]
    rfl
  have hpd : digitOrSemi p = true := by
    rcases hp with hp | hp <;> subst hp <;> decide
  have hlast : (escChar :: '[' :: p :: '8' :: ';' :: '2' :: ';' :: tail ++ ['m']).getLast?
      = some 'm' := by
    show ((escChar :: '[' :: p :: '8' :: ';' :: '2' :: ';' :: tail) ++ ['m']).getLast? = some 'm'
    exact List.getLast?_concat _
  have hmatch : ansiRegexMatch (escChar :: '[' :: p :: '8' :: ';' :: '2' :: ';' :: tail ++ ['m'])
      = true := by
    rw [ansiRegexMatch, hlast]
    rw [if_neg (by decide)]
    show ansiShape (escChar :: '[' :: p :: '8' :: ';' :: '2' :: ';' :: tail ++ ['m']) = true
    show (escChar == escChar && ('[' == '[') &&
      ((p :: '8' :: ';' :: '2' :: ';' :: tail ++ ['m']).getLast? == some 'm') &&
      !(p :: '8' :: ';' :: '2' :: ';' :: tail ++ ['m']).dropLast.isEmpty &&
      (p :: '8' :: ';' :: '2' :: ';' :: tail ++ ['m']).dropLast.all digitOrSemi) = true
    have e1 : (p :: '8' :: ';' :: '2' :: ';' :: tail ++ ['m']).getLast? = some 'm' := by
      show ((p :: '8' :: ';' :: '2' :: ';' :: tail) ++ ['m']).getLast? = some 'm'
      exact List.getLast?_concat _
    have e2 : (p :: '8' :: ';' :: '2' :: ';' :: tail ++ ['m']).dropLast
        = p :: '8' :: ';' :: '2' :: ';' :: tail := by
      show ((p :: '8' :: ';' :: '2' :: ';' :: tail) ++ ['m']).dropLast = _
      exact List.dropLast_concat
    rw [e1, e2]
    simp only [beq_self_eq_true, Bool.true_and, List.isEmpty_cons, Bool.not_false,
      List.all_cons, Bool.and_eq_true, List.all_eq_true]
    exact ⟨hpd, by decide, by decide, by decide, by decide, fun c hc => ht2 c hc⟩
  rw [validate_ansi, hmatch]
  have hdrop : (escChar :: '[' :: p :: '8' :: ';' :: '2' :: ';' :: tail ++ ['m']).drop 2
      = (p :: '8' :: ';' :: '2' :: ';' :: tail) ++ ['m'] := rfl
  have hcode : rstripChar 'm' ((p :: '8' :: ';' :: '2' :: ';' :: tail) ++ ['m'])
      = p :: '8' :: ';' :: '2' :: ';' :: tail :=
    rstrip_concat hblast (digit_ne_m hdd)
  simp only [Bool.not_true, if_false, Bool.false_eq_true, hdrop, hcode]
  rw [if_neg ?hcond]
  case hcond =>
    rcases hp with hp | hp <;> subst hp
    · have h38 : startsW (strOf "38;2;") ('3' :: '8' :: ';' :: '2' :: ';' :: tail) = true := by
        have : strOf "38;2;" ++ tail = '3' :: '8' :: ';' :: '2' :: ';' :: tail := rfl
        rw [← this]
        exact startsW_append _ _
      rw [h38]
      simp
    · have h48 : startsW (strOf "48;2;") ('4' :: '8' :: ';' :: '2' :: ';' :: tail) = true := by
        have : strOf "48;2;" ++ tail = '4' :: '8' :: ';' :: '2' :: ';' :: tail := rfl
        rw [← this]
        exact startsW_append _ _
      rw [h48]
      simp

theorem exceptBind_ok {ε α β : Type} (a : α) (f : α → Except ε β) :
    Except.bind (Except.ok a) f = f a := rfl

theorem decInt_ofNat (v : Nat) : decInt ((v : Nat) : Int) = decNat v := by
  rw [decInt, if_neg (by omega)]
  simp

theorem ansi_to_rgb_tc {p : Char} (hp : p = '3' ∨ p = '4') (v1 v2 v3 : Nat) :
    ansi_to_rgb (escChar :: '[' :: p :: '8' :: ';' :: '2' :: ';' ::
      (decNat v1 ++ ';' :: (decNat v2 ++ ';' :: (decNat v3 ++ ['m']))))
      = Except.ok ((v1 : Int), (v2 : Int), (v3 : Int)) := by
  have htt : decNat v1 ++ ';' :: (decNat v2 ++ ';' :: (decNat v3 ++ ['m']))
      = (decNat v1 ++ (';' :: (decNat v2 ++ (';' :: decNat v3)))) ++ ['m'] := by
    simp [List.append_assoc]
  have hne : decNat v1 ++ ';' :: (decNat v2 ++ ';' :: decNat v3) ≠ [] := by
    intro hx
    exact decNat_ne_nil v1 (List.append_eq_nil.mp hx).1
  have hall : ∀ c ∈ decNat v1 ++ ';' :: (decNat v2 ++ ';' :: decNat v3),
      digitOrSemi c = true := by
    intro c hc
    simp only [List.mem_append, List.mem_cons] at hc
    rcases hc with hc | hc | hc
    · simp [digitOrSemi, decNat_all_digit v1 c hc]
    · simp [digitOrSemi, hc]
    · rcases hc with hc | hc | hc
      · simp [digitOrSemi, decNat_all_digit v2 c hc]
      · simp [digitOrSemi, hc]
      · simp [digitOrSemi, decNat_all_digit v3 c hc]
  have hlastd : ∃ d, (decNat v1 ++ ';' :: (decNat v2 ++ ';' :: decNat v3)).getLast?
      = some d ∧ isDigitC d = true := by
    obtain ⟨d, hd1, hd2⟩ := decNat_getLast_digit v3
    refine ⟨d, ?_, hd2⟩
    rw [List.getLast?_append]
    show ((';' :: (decNat v2 ++ ';' :: decNat v3)).getLast?).or _ = some d
    rw [show (';' :: (decNat v2 ++ ';' :: decNat v3)) = [';'] ++ (decNat v2 ++ ';' :: decNat v3) from rfl]
    rw [List.getLast?_append, List.getLast?_append]
    rw [show (';' :: decNat v3) = [';'] ++ decNat v3 from rfl]
    rw [List.getLast?_append, hd1]
    rfl
  have hval : validate_ansi (escChar :: '[' :: p :: '8' :: ';' :: '2' :: ';' ::
      (decNat v1 ++ ';' :: (decNat v2 ++ ';' :: (decNat v3 ++ ['m'])))) = pure () := by
    rw [htt]
    exact validate_ansi_tc hp hne hall hlastd
  rw [ansi_to_rgb, hval, pure_bind]
  obtain ⟨d, hd1, hd2⟩ := hlastd
  have hdrop : (escChar :: '[' :: p :: '8' :: ';' :: '2' :: ';' ::
      (decNat v1 ++ ';' :: (decNat v2 ++ ';' :: (decNat v3 ++ ['m'])))).drop 7
      = (decNat v1 ++ (';' :: (decNat v2 ++ (';' :: decNat v3)))) ++ ['m'] := by
    show decNat v1 ++ ';' :: (decNat v2 ++ ';' :: (decNat v3 ++ ['m'])) = _
    rw [htt]
  have hcode : rstripChar 'm' ((decNat v1 ++ (';' :: (decNat v2 ++ (';' :: decNat v3)))) ++ ['m'])
      = decNat v1 ++ ';' :: (decNat v2 ++ ';' :: decNat v3) :=
    rstrip_concat hd1 (digit_ne_m hd2)
  have hsplit : splitOnChar ';' (decNat v1 ++ ';' :: (decNat v2 ++ ';' :: decNat v3))
      = [decNat v1, decNat v2, decNat v3] := by
    rw [splitOnChar_append_sep (semi_not_mem_decNat v1),
      splitOnChar_append_sep (semi_not_mem_decNat v2),
      splitOnChar_no_sep (semi_not_mem_decNat v3)]
  rcases hp with hp | hp <;> subst hp
  · have h38 : startsW [escChar, '[', '3', '8', ';', '2', ';']
        (escChar :: '[' :: '3' :: '8' :: ';' :: '2' :: ';' ::
          (decNat v1 ++ ';' :: (decNat v2 ++ ';' :: (decNat v3 ++ ['m'])))) = true := by
      exact startsW_append [escChar, '[', '3', '8', ';', '2', ';'] _
    rw [if_pos (by rw [h38]; rfl)]
    rw [hdrop, hcode]
    show (match splitOnChar ';' (decNat v1 ++ ';' :: (decNat v2 ++ ';' :: decNat v3)) with
      | [sr, sg, sb] =>
        match parseDec sr, parseDec sg, parseDec sb with
        | some r, some g, some b => pure (r, g, b)
        | _, _, _ => Except.error (PyErr.valueError "invalid literal for int() with base 10")
      | _ => Except.error (PyErr.valueError "cannot unpack")) = _
    rw [hsplit]
    show (match parseDec (decNat v1), parseDec (decNat v2), parseDec (decNat v3) with
      | some r, some g, some b => pure (r, g, b)
      | _, _, _ => Except.error (PyErr.valueError "invalid literal for int() with base 10")) = _
    rw [parseDec_decNat, parseDec_decNat, parseDec_decNat]
    rfl
  · have h48 : startsW [escChar, '[', '4', '8', ';', '2', ';']
        (escChar :: '[' :: '4' :: '8' :: ';' :: '2' :: ';' ::
          (decNat v1 ++ ';' :: (decNat v2 ++ ';' :: (decNat v3 ++ ['m'])))) = true := by
      exact startsW_append [escChar, '[', '4', '8', ';', '2', ';'] _
    have h38f : startsW [escChar, '[', '3', '8', ';', '2', ';']
        (escChar :: '[' :: '4' :: '8' :: ';' :: '2' :: ';' ::
          (decNat v1 ++ ';' :: (decNat v2 ++ ';' :: (decNat v3 ++ ['m'])))) = false := by
      simp [startsW]
    rw [if_pos (by rw [h38f, h48]; rfl)]
    rw [hdrop, hcode]
    show (match splitOnChar ';' (decNat v1 ++ ';' :: (decNat v2 ++ ';' :: decNat v3)) with
      | [sr, sg, sb] =>
        match parseDec sr, parseDec sg, parseDec sb with
        | some r, some g, some b => pure (r, g, b)
        | _, _, _ => Except.error (PyErr.valueError "invalid literal for int() with base 10")
      | _ => Except.error (PyErr.valueError "cannot unpack")) = _
    rw [hsplit]
    show (match parseDec (decNat v1), parseDec (decNat v2), parseDec (decNat v3) with
      | some r, some g, some b => pure (r, g, b)
      | _, _, _ => Except.error (PyErr.valueError "invalid literal for int() with base 10")) = _
    rw [parseDec_decNat, parseDec_decNat, parseDec_decNat]
    rfl



theorem pyMinKey_min {α : Type} (key : α → Nat) :
    ∀ (xs : List α) (x : α) (y : α), y ∈ x :: xs → key (pyMinKey key x xs) ≤ key y := by
  intro xs
  induction xs with
  | nil =>
    intro x y hy
    rcases List.mem_singleton.mp hy with rfl
    exact le_refl _
  | cons p xs ih =>
    intro x y hy
    have hstep : pyMinKey key x (p :: xs) =
        pyMinKey key (if key p < key x then p else x) xs := rfl
    rw [hstep]
    have hbase : key (if key p < key x then p else x) ≤ key x ∧
        key (if key p < key x then p else x) ≤ key p := by
      by_cases hc : key p < key x <;> simp [hc] <;> omega
    rcases List.mem_cons.mp hy with rfl | hy2
    · exact le_trans (ih _ _ (List.mem_cons_self _ _)) hbase.1
    · rcases List.mem_cons.mp hy2 with rfl | hy3
      · exact le_trans (ih _ _ (List.mem_cons_self _ _)) hbase.2
      · exact ih _ y (List.mem_cons_of_mem _ hy3)

theorem pyMinKey_split {α : Type} (key : α → Nat) :
    ∀ (xs : List α) (x : α), ∃ pre post,
      x :: xs = pre ++ pyMinKey key x xs :: post
      ∧ ∀ y ∈ pre, key (pyMinKey key x xs) < key y := by
  intro xs
  induction xs with
  | nil =>
    intro x
    exact ⟨[], [], rfl, by simp⟩
  | cons p xs ih =>
    intro x
    have hstep : pyMinKey key x (p :: xs) =
        pyMinKey key (if key p < key x then p else x) xs := rfl
    by_cases hc : key p < key x
    · obtain ⟨pre, post, heq, hstrict⟩ := ih p
      have hxp : (if key p < key x then p else x) = p := by simp [hc]
      refine ⟨x :: pre, post, ?_, ?_⟩
      · rw [hstep, hxp]
        rw [List.cons_append]
        rw [← heq]
      · intro y hy
        rcases List.mem_cons.mp hy with rfl | hy2
        · rw [hstep, hxp]
          calc key (pyMinKey key p xs) ≤ key p := pyMinKey_min key xs p p (List.mem_cons_self _ _)
            _ < key y := hc
        · rw [hstep, hxp]
          exact hstrict y hy2
    · obtain ⟨pre, post, heq, hstrict⟩ := ih x
      have hxp : (if key p < key x then p else x) = x := by simp [hc]
      cases pre with
      | nil =>
        have hr : pyMinKey key x xs = x := by
          simp only [List.nil_append, List.cons.injEq] at heq
          exact heq.1.symm
        refine ⟨[], p :: xs, ?_, by simp⟩
        rw [hstep, hxp, hr]
        simp
      | cons q pre2 =>
        simp only [List.cons_append, List.cons.injEq] at heq
        obtain ⟨hxq, heq2⟩ := heq
        have hrx : key (pyMinKey key x xs) < key x := by
          have := hstrict q (List.mem_cons_self _ _)
          rw [← hxq] at this
          exact this
        refine ⟨x :: p :: pre2, post, ?_, ?_⟩
        · rw [hstep, hxp]
          simp only [List.cons_append, List.cons.injEq, true_and]
          exact heq2
        · intro y hy
          rw [hstep, hxp]
          rcases List.mem_cons.mp hy with rfl | hy2
          · exact hrx
          · rcases List.mem_cons.mp hy2 with rfl | hy3
            · omega
            · have := hstrict y (List.mem_cons_of_mem _ hy3)
              exact this

theorem pyMinKey_congr {α : Type} (key1 key2 : α → Nat) :
    ∀ (xs : List α) (x : α), (∀ y ∈ x :: xs, key1 y = key2 y) →
      pyMinKey key1 x xs = pyMinKey key2 x xs := by
  intro xs
  induction xs with
  | nil => intro x _; rfl
  | cons p xs ih =>
    intro x hk
    have h1 : pyMinKey key1 x (p :: xs) =
        pyMinKey key1 (if key1 p < key1 x then p else x) xs := rfl
    have h2 : pyMinKey key2 x (p :: xs) =
        pyMinKey key2 (if key2 p < key2 x then p else x) xs := rfl
    rw [h1, h2]
    have hpx : key1 p = key2 p := hk p (by simp)
    have hxx : key1 x = key2 x := hk x (by simp)
    rw [hpx, hxx]
    by_cases hc : key2 p < key2 x
    · simp only [if_pos hc]
      apply ih
      intro y hy
      rcases List.mem_cons.mp hy with rfl | hy2
      · exact hpx
      · exact hk y (by simp [hy2])
    · simp only [if_neg hc]
      apply ih
      intro y hy
      rcases List.mem_cons.mp hy with rfl | hy2
      · exact hxx
      · exact hk y (by simp [hy2])

theorem pyIndexOf_split {α : Type} [DecidableEq α] (a : α) :
    ∀ (pre : List α) (post : List α), a ∉ pre →
      pyIndexOf a (pre ++ a :: post) = some pre.length := by
  intro pre
  induction pre with
  | nil =>
    intro post _
    simp [pyIndexOf]
  | cons x pre2 ih =>
    intro post hnm
    have hx : ¬ (x = a) := by
      intro hx
      exact hnm (by simp [hx])
    show pyIndexOf a ((x :: pre2) ++ a :: post) = some (pre2.length + 1)
    rw [List.cons_append, pyIndexOf, if_neg hx,
      ih post (fun hm => hnm (List.mem_cons_of_mem _ hm))]
    rfl


theorem parseHex_pair_fold {c1 c2 : Char} (h1 : isHexDigitC c1 = true)
    (h2 : isHexDigitC c2 = true) :
    parseHex [c1, c2] = some (((0 * 16 + hexVal c1) * 16 + hexVal c2 : Nat)) := by
  rw [parseHex, if_pos (by simp [h1, h2])]
  rfl

theorem hexDistance_eq {a b : Str} (ha6 : a.length = 6)
    (haall : ∀ c ∈ a, isHexDigitC c = true)
    (hb6 : b.length = 6) (hball : ∀ c ∈ b, isHexDigitC c = true) :
    hexDistance a b = some (specDist a b) := by
  match a, ha6 with
  | [a1, a2, a3, a4, a5, a6], _ =>
    match b, hb6 with
    | [b1, b2, b3, b4, b5, b6], _ =>
      have ha1 := haall a1 (by simp)
      have ha2 := haall a2 (by simp)
      have ha3 := haall a3 (by simp)
      have ha4 := haall a4 (by simp)
      have ha5 := haall a5 (by simp)
      have ha6d := haall a6 (by simp)
      have hb1 := hball b1 (by simp)
      have hb2 := hball b2 (by simp)
      have hb3 := hball b3 (by simp)
      have hb4 := hball b4 (by simp)
      have hb5 := hball b5 (by simp)
      have hb6d := hball b6 (by simp)
      rw [hexDistance, if_pos (by constructor <;> rfl)]
      have e1 : pySlice [a1, a2, a3, a4, a5, a6] 0 2 = [a1, a2] := rfl
      have e2 : pySlice [a1, a2, a3, a4, a5, a6] 2 4 = [a3, a4] := rfl
      have e3 : pySlice [a1, a2, a3, a4, a5, a6] 4 6 = [a5, a6] := rfl
      have f1 : pySlice [b1, b2, b3, b4, b5, b6] 0 2 = [b1, b2] := rfl
      have f2 : pySlice [b1, b2, b3, b4, b5, b6] 2 4 = [b3, b4] := rfl
      have f3 : pySlice [b1, b2, b3, b4, b5, b6] 4 6 = [b5, b6] := rfl
      rw [e1, e2, e3, f1, f2, f3]
      rw [parseHex_pair_fold ha1 ha2, parseHex_pair_fold ha3 ha4, parseHex_pair_fold ha5 ha6d,
        parseHex_pair_fold hb1 hb2, parseHex_pair_fold hb3 hb4, parseHex_pair_fold hb5 hb6d]
      rfl

theorem closest_spec (code : Str) (h6 : code.length = 6)
    (hall : ∀ c ∈ code, isHexDigitC c = true) :
    ∃ pre chosen post, standardColors = pre ++ chosen :: post
      ∧ closest_standard_color code = some (pre.length + 44)
      ∧ (∀ s ∈ standardColors, specDist code chosen ≤ specDist code s)
      ∧ (∀ s ∈ pre, specDist code chosen < specDist code s) := by
  have hstd : ∀ s ∈ standardColors, s.length = 6 ∧ ∀ c ∈ s, isHexDigitC c = true := by
    intro s hs
    fin_cases hs <;> exact ⟨by rfl, by decide⟩
  have hds : ∀ s ∈ standardColors, hexDistance code s = some (specDist code s) := by
    intro s hs
    exact hexDistance_eq h6 hall (hstd s hs).1 (hstd s hs).2
  have hguard : standardColors.all (fun c => (hexDistance code c).isSome) = true := by
    rw [List.all_eq_true]
    intro s hs
    rw [hds s hs]
    rfl
  have hkey : ∀ y ∈ standardColors,
      (fun c => (hexDistance code c).getD 0) y = (fun c => specDist code c) y := by
    intro y hy
    simp only
    rw [hds y hy]
    rfl
  rw [closest_standard_color, if_pos hguard]
  obtain ⟨x, xs, hxxs⟩ : ∃ x xs, standardColors = x :: xs := ⟨_, _, rfl⟩
  have hcongr : pyMinKey (fun c => (hexDistance code c).getD 0) x xs
      = pyMinKey (fun c => specDist code c) x xs := by
    apply pyMinKey_congr
    intro y hy
    exact hkey y (by rw [hxxs]; exact hy)
  obtain ⟨pre, post, heq, hstrict⟩ := pyMinKey_split (fun c => specDist code c) xs x
  have hmem : ∀ y ∈ x :: xs, specDist code (pyMinKey (fun c => specDist code c) x xs)
      ≤ specDist code y := pyMinKey_min _ xs x
  refine ⟨pre, pyMinKey (fun c => specDist code c) x xs, post, by rw [hxxs]; exact heq, ?_, ?_, ?_⟩
  · show (match standardColors with
      | [] => none
      | x :: xs => (pyIndexOf (pyMinKey (fun c => (hexDistance code c).getD 0) x xs)
          standardColors).map (· + 44)) = some (pre.length + 44)
    rw [hxxs]
    show (pyIndexOf (pyMinKey (fun c => (hexDistance code c).getD 0) x xs)
        (x :: xs)).map (· + 44) = some (pre.length + 44)
    rw [hcongr]
    have hnm : pyMinKey (fun c => specDist code c) x xs ∉ pre := by
      intro hm
      have := hstrict _ hm
      omega
    rw [show (x :: xs) = pre ++ pyMinKey (fun c => specDist code c) x xs :: post from heq]
    rw [pyIndexOf_split _ pre post hnm]
    rfl
  · intro s hs
    exact hmem s (by rw [← hxxs]; exact hs)
  · exact fun s hs => hstrict s hs




theorem rstrip_of_last_ne {c d : Char} {xs : Str} (hlast : xs.getLast? = some d)
    (hne : d ≠ c) : rstripChar c xs = xs := by
  unfold rstripChar
  match hrev : xs.reverse with
  | [] =>
    rw [List.reverse_eq_nil_iff] at hrev
    rw [hrev]
    rfl
  | y :: ys =>
    have hy : xs.getLast? = some y := by
      rw [← List.head?_reverse, hrev]
      rfl
    rw [hlast] at hy
    injection hy with hy
    rw [List.dropWhile_cons_of_neg (by simp [← hy, hne])]
    rw [← hrev, List.reverse_reverse]

theorem digitOrSemi_ne_m {d : Char} (hd : digitOrSemi d = true) : d ≠ 'm' := by
  intro h
  rw [h] at hd
  simp [digitOrSemi, isDigitC] at hd

theorem startsW_mn (p1 p2 p3 p4 p5 : Char) (h1 : p1 ≠ 'm') (h2 : p2 ≠ 'm')
    (h3 : p3 ≠ 'm') (h4 : p4 ≠ 'm') (h5 : p5 ≠ 'm') (body : Str) :
    startsW [p1, p2, p3, p4, p5] (body ++ ['m', '\n'])
      = startsW [p1, p2, p3, p4, p5] body := by
  match body with
  | [] => simp [startsW, h1]
  | [b1] => simp [startsW, h2, Bool.and_assoc]
  | [b1, b2] => simp [startsW, h3, Bool.and_assoc]
  | [b1, b2, b3] => simp [startsW, h4, Bool.and_assoc]
  | [b1, b2, b3, b4] => simp [startsW, h5, Bool.and_assoc]
  | b1 :: b2 :: b3 :: b4 :: b5 :: rest => simp [startsW]

theorem validate_ansi_core {body : Str} (hne : body ≠ [])
    (hall : ∀ c ∈ body, digitOrSemi c = true)
    (hcond : body.all isDigitC = true ∨ startsW (strOf "38;2;") body = true
      ∨ startsW (strOf "48;2;") body = true) :
    validate_ansi (escChar :: '[' :: body ++ ['m']) = pure () := by
  obtain ⟨front, d, hfd⟩ : ∃ front d, body = front ++ [d] := by
    rcases List.eq_nil_or_concat body with h | ⟨front, d, h⟩
    · exact absurd h hne
    · exact ⟨front, d, by simpa [List.concat_eq_append] using h⟩
  have hdm : body.getLast? = some d := by rw [hfd]; exact List.getLast?_concat front
  have hdd : digitOrSemi d = true := hall d (by rw [hfd]; simp)
  have hbody : body.isEmpty = false := by
    cases body with
    | nil => exact absurd rfl hne
    | cons a l => rfl
  have hlast : (escChar :: '[' :: body ++ ['m']).getLast? = some 'm' := by
    show ((escChar :: '[' :: body) ++ ['m']).getLast? = some 'm'
    exact List.getLast?_concat _
  have hmatch : ansiRegexMatch (escChar :: '[' :: body ++ ['m']) = true := by
    rw [ansiRegexMatch, hlast]
    rw [if_neg (by decide)]
    show (escChar == escChar && ('[' == '[') && ((body ++ ['m']).getLast? == some 'm') &&
      !(body ++ ['m']).dropLast.isEmpty && (body ++ ['m']).dropLast.all digitOrSemi) = true
    simp only [List.dropLast_concat, List.getLast?_concat, beq_self_eq_true,
      Bool.true_and, Bool.and_eq_true, Bool.not_eq_true', List.all_eq_true]
    exact ⟨hbody, hall⟩
  have hcode : rstripChar 'm' (body ++ ['m']) = body :=
    rstrip_concat hdm (digitOrSemi_ne_m hdd)
  have hdrop : (escChar :: '[' :: body ++ ['m']).drop 2 = body ++ ['m'] := rfl
  rw [validate_ansi, hmatch]
  simp only [Bool.not_true, if_false, Bool.false_eq_true, hdrop, hcode]
  rw [if_neg ?hc]
  case hc =>
    rcases hcond with hc | hc | hc
    · rw [hc]
      simp [hbody]
    · rw [hc]
      simp
    · rw [hc]
      simp

theorem validate_ansi_core_nl {body : Str} (hne : body ≠ [])
    (hall : ∀ c ∈ body, digitOrSemi c = true)
    (hcond : startsW (strOf "38;2;") body = true ∨ startsW (strOf "48;2;") body = true) :
    validate_ansi (escChar :: '[' :: body ++ ['m', '\n']) = pure () := by
  have hbody : body.isEmpty = false := by
    cases body with
    | nil => exact absurd rfl hne
    | cons a l => rfl
  have hshape : body ++ ['m', '\n'] = (body ++ ['m']) ++ ['\n'] := by simp
  have hsingle : (['m', '\n'] : Str) = ['m'] ++ ['\n'] := rfl
  have hlast : (escChar :: '[' :: body ++ ['m', '\n']).getLast? = some '\n' := by
    rw [hsingle, ← List.append_assoc]
    exact List.getLast?_concat _
  have hmatch : ansiRegexMatch (escChar :: '[' :: body ++ ['m', '\n']) = true := by
    rw [ansiRegexMatch, hlast]
    rw [if_pos (by decide)]
    have hdl : (escChar :: '[' :: body ++ ['m', '\n']).dropLast
        = escChar :: '[' :: body ++ ['m'] := by
      rw [hsingle, ← List.append_assoc]
      exact List.dropLast_concat
    rw [hdl]
    show (escChar == escChar && ('[' == '[') && ((body ++ ['m']).getLast? == some 'm') &&
      !(body ++ ['m']).dropLast.isEmpty && (body ++ ['m']).dropLast.all digitOrSemi) = true
    simp only [List.dropLast_concat, List.getLast?_concat, beq_self_eq_true,
      Bool.true_and, Bool.and_eq_true, Bool.not_eq_true', List.all_eq_true]
    exact ⟨hbody, hall⟩
  have hlst : (body ++ ['m', '\n']).getLast? = some '\n' := by
    rw [hshape]
    exact List.getLast?_concat _
  have hcode : rstripChar 'm' (body ++ ['m', '\n']) = body ++ ['m', '\n'] :=
    rstrip_of_last_ne hlst (by decide)
  have hdrop : (escChar :: '[' :: body ++ ['m', '\n']).drop 2 = body ++ ['m', '\n'] := rfl
  rw [validate_ansi, hmatch]
  simp only [Bool.not_true, if_false, Bool.false_eq_true, hdrop, hcode]
  have e38 : strOf "38;2;" = ['3', '8', ';', '2', ';'] := rfl
  have e48 : strOf "48;2;" = ['4', '8', ';', '2', ';'] := rfl
  have h38 := startsW_mn '3' '8' ';' '2' ';'
    (by decide) (by decide) (by decide) (by decide) (by decide) body
  have h48 := startsW_mn '4' '8' ';' '2' ';'
    (by decide) (by decide) (by decide) (by decide) (by decide) body
  rw [if_neg ?hc]
  case hc =>
    rw [e38, e48, h38, h48]
    rcases hcond with hc | hc
    · rw [e38] at hc
      rw [hc]
      simp
    · rw [e48] at hc
      rw [hc]
      simp




theorem strLtB_trichotomy : ∀ s t : Str, strLtB s t = true ∨ s = t ∨ strLtB t s = true := by
  intro s
  induction s with
  | nil =>
    intro t
    cases t with
    | nil => exact Or.inr (Or.inl rfl)
    | cons c cs => exact Or.inl rfl
  | cons a as ih =>
    intro t
    cases t with
    | nil => exact Or.inr (Or.inr rfl)
    | cons b bs =>
      rcases Nat.lt_trichotomy a.toNat b.toNat with hab | hab | hab
      · exact Or.inl (by rw [strLtB, if_pos hab])
      · have hcb : a = b := charToNat_inj hab
        subst hcb
        rcases ih bs with h | h | h
        · exact Or.inl (by rw [strLtB, if_neg (by omega), if_neg (by omega)]; exact h)
        · exact Or.inr (Or.inl (by rw [h]))
        · exact Or.inr (Or.inr (by rw [strLtB, if_neg (by omega), if_neg (by omega)]; exact h))
      · exact Or.inr (Or.inr (by rw [strLtB, if_pos hab]))

theorem strLtB_asymm : ∀ s t : Str, strLtB s t = true → strLtB t s = true → False := by
  intro s
  induction s with
  | nil =>
    intro t h1 h2
    cases t with
    | nil => simp [strLtB] at h1
    | cons c cs => simp [strLtB] at h2
  | cons a as ih =>
    intro t h1 h2
    cases t with
    | nil => simp [strLtB] at h1
    | cons b bs =>
      rw [strLtB] at h1 h2
      by_cases hab : a.toNat < b.toNat
      · rw [if_neg (by omega), if_pos hab] at h2
        simp at h2
      · by_cases hba : b.toNat < a.toNat
        · rw [if_neg (by omega), if_pos hba] at h1
          simp at h1
        · rw [if_neg hab, if_neg hba] at h1
          rw [if_neg hba, if_neg hab] at h2
          exact ih bs h1 h2

theorem strLtB_trans : ∀ s t u : Str, strLtB s t = true → strLtB t u = true →
    strLtB s u = true := by
  intro s
  induction s with
  | nil =>
    intro t u h1 h2
    cases u with
    | nil =>
      cases t with
      | nil => exact h1
      | cons b bs => simp [strLtB] at h2
    | cons c cs => rfl
  | cons a as ih =>
    intro t u h1 h2
    cases t with
    | nil => simp [strLtB] at h1
    | cons b bs =>
      cases u with
      | nil => simp [strLtB] at h2
      | cons c cs =>
        rw [strLtB] at h1 h2 ⊢
        by_cases hab : a.toNat < b.toNat
        · by_cases hbc : b.toNat < c.toNat
          · rw [if_pos (by omega)]
          · by_cases hcb : c.toNat < b.toNat
            · rw [if_neg hbc, if_pos hcb] at h2
              simp at h2
            · have : b.toNat = c.toNat := by omega
              rw [if_pos (by omega)]
        · by_cases hba : b.toNat < a.toNat
          · rw [if_neg (by omega), if_pos hba] at h1
            simp at h1
          · have hab2 : a.toNat = b.toNat := by omega
            rw [if_neg hab, if_neg hba] at h1
            by_cases hbc : b.toNat < c.toNat
            · rw [if_pos (by omega)]
            · by_cases hcb : c.toNat < b.toNat
              · rw [if_neg hbc, if_pos hcb] at h2
                simp at h2
              · rw [if_neg hbc, if_neg hcb] at h2
                rw [if_neg (by omega), if_neg (by omega)]
                exact ih bs cs h1 h2

instance : IsTotal (Str × Mapping) nameLe :=
  ⟨by
    intro a b
    rcases strLtB_trichotomy a.1 b.1 with h | h | h
    · exact Or.inl (Or.inl h)
    · exact Or.inl (Or.inr h)
    · exact Or.inr (Or.inl h)⟩

instance : IsTrans (Str × Mapping) nameLe :=
  ⟨by
    intro a b c hab hbc
    rcases hab with hab | hab
    · rcases hbc with hbc | hbc
      · exact Or.inl (strLtB_trans _ _ _ hab hbc)
      · exact Or.inl (by rw [← hbc]; exact hab)
    · rcases hbc with hbc | hbc
      · exact Or.inl (by rw [hab]; exact hbc)
      · exact Or.inr (by rw [hab, hbc])⟩

instance : IsAntisymm (Str × Mapping) nameLt :=
  ⟨fun a b hab hba => (strLtB_asymm _ _ hab hba).elim⟩

theorem getMappings_perm (M : ColorMapper) : (get_mappings M).Perm M.mappings :=
  List.perm_insertionSort nameLe M.mappings

theorem getMappings_sorted (M : ColorMapper) : List.Sorted nameLe (get_mappings M) :=
  List.sorted_insertionSort nameLe M.mappings

theorem getMappings_pairwise_lt (M : ColorMapper)
    (hnd : (M.mappings.map Prod.fst).Nodup) :
    List.Pairwise nameLt (get_mappings M) := by
  have hnd2 : ((get_mappings M).map Prod.fst).Nodup := by
    have hp : ((get_mappings M).map Prod.fst).Perm (M.mappings.map Prod.fst) :=
      (getMappings_perm M).map Prod.fst
    exact hp.symm.nodup hnd
  have hne : List.Pairwise (fun a b : Str × Mapping => a.1 ≠ b.1) (get_mappings M) :=
    List.pairwise_map.mp hnd2
  have hle : List.Pairwise nameLe (get_mappings M) := getMappings_sorted M
  have := hle.and hne
  exact this.imp (by
    intro a b hab
    rcases hab.1 with h | h
    · exact h
    · exact absurd h hab.2)

theorem getMappings_eq_of_perm {M M2 : ColorMapper}
    (hperm : M.mappings.Perm M2.mappings)
    (hnd : (M.mappings.map Prod.fst).Nodup) :
    get_mappings M = get_mappings M2 := by
  have hnd2 : (M2.mappings.map Prod.fst).Nodup := (hperm.map Prod.fst).nodup hnd
  have hp : (get_mappings M).Perm (get_mappings M2) :=
    ((getMappings_perm M).trans hperm).trans (getMappings_perm M2).symm
  exact List.eq_of_perm_of_sorted hp
    (List.Pairwise.imp id (getMappings_pairwise_lt M hnd))
    (List.Pairwise.imp id (getMappings_pairwise_lt M2 hnd2))


theorem scanKeywords_eq_firstMatch (search : Bool → Str → Str → Bool)
    (subAll : Bool → Str → (Str → Str) → Str → Str) (v : Mapping) (msg : Str) :
    ∀ kws : List Str, scanKeywords search subAll v msg kws =
      match kws.find? (fun kw => search v.flags.ignore_case kw msg) with
      | none => msg
      | some kw => applyMappingStyle subAll v v.flags.ignore_case kw msg := by
  intro kws
  induction kws with
  | nil => rfl
  | cons kw rest ih =>
    rw [scanKeywords]
    cases hic : v.flags.ignore_case with
    | true =>
      rw [if_pos rfl]
      cases hsr : search true kw msg with
      | true =>
        rw [if_pos rfl]
        rw [List.find?_cons_of_pos _ (by simpa using hsr)]
      | false =>
        rw [if_neg (by simp)]
        rw [List.find?_cons_of_neg _ (by simp [hsr])]
        rw [hic] at ih
        exact ih
    | false =>
      rw [if_neg (by simp)]
      cases hsr : search false kw msg with
      | true =>
        rw [if_pos rfl]
        rw [List.find?_cons_of_pos _ (by simpa using hsr)]
      | false =>
        rw [if_neg (by simp)]
        rw [List.find?_cons_of_neg _ (by simp [hsr])]
        rw [hic] at ih
        exact ih

theorem foldl_scan_eq_firstMatch (search : Bool → Str → Str → Bool)
    (subAll : Bool → Str → (Str → Str) → Str → Str) :
    ∀ (l : List (Str × Mapping)) (msg : Str),
      l.foldl (fun cur entry => scanKeywords search subAll entry.2 cur entry.2.keywords) msg
        = l.foldl (fun cur e => applyRuleFirstMatch search subAll e cur) msg := by
  intro l
  induction l with
  | nil => intro msg; rfl
  | cons e l ih =>
    intro msg
    rw [List.foldl_cons, List.foldl_cons, ih]
    congr 1
    rw [scanKeywords_eq_firstMatch]
    rfl



/-! ## Claim theorems -/

/-- C8: for the input string "this is a TEST message_-24#@", the case
transformer returns "this-is-a-test-message-24" for kebab case,
"this_is_a_test_message_24" for snake case, "thisIsATestMessage_24" for
camel case (the underscore survives because camel strips only characters
outside [A-Za-z0-9_]), and "ThisIsATestMessage24" for pascal case. -/
theorem case_transforms_concrete :
    TextCase.convert_text (strOf "this is a TEST message_-24#@") TextCase.KEBAB_CASE
        = strOf "this-is-a-test-message-24"
  ∧ TextCase.convert_text (strOf "this is a TEST message_-24#@") TextCase.SNAKE_CASE
        = strOf "this_is_a_test_message_24"
  ∧ TextCase.convert_text (strOf "this is a TEST message_-24#@") TextCase.CAMEL_CASE
        = strOf "thisIsATestMessage_24"
  ∧ TextCase.convert_text (strOf "this is a TEST message_-24#@") TextCase.PASCAL_CASE
        = strOf "ThisIsATestMessage24" := by
  refine ⟨?_, ?_, ?_, ?_⟩ <;> decide


/-- C5: for c, m, y, k each in [0,1], cmyk_to_rgb computes each channel as
the truncation toward zero (not round-to-nearest) of 255*(1-x)*(1-k), x the
matching component; in particular cmyk_to_rgb(0,0,0,0) = (255,255,255).
The last conjunct shows a channel value 137.7 that truncates to 137 where
round-to-nearest would give 138. -/
theorem cmyk_to_rgb_truncates (c m y k : Rat)
    (hc : 0 ≤ c ∧ c ≤ 1) (hm : 0 ≤ m ∧ m ≤ 1) (hy : 0 ≤ y ∧ y ≤ 1) (hk : 0 ≤ k ∧ k ≤ 1) :
    cmyk_to_rgb c m y k = Except.ok
      (pyTrunc (255 * (1 - c) * (1 - k)),
       pyTrunc (255 * (1 - m) * (1 - k)),
       pyTrunc (255 * (1 - y) * (1 - k)))
    ∧ (∀ q : Rat, 0 ≤ q → pyTrunc q = ⌊q⌋ ∧ (pyTrunc q : Rat) ≤ q ∧ q < pyTrunc q + 1)
    ∧ cmyk_to_rgb 0 0 0 0 = Except.ok (255, 255, 255)
    ∧ (cmyk_to_rgb (1/10) (1/10) (1/10) (2/5) = Except.ok (137, 137, 137)
        ∧ 255 * (1 - (1/10 : Rat)) * (1 - 2/5) = 1377/10
        ∧ pyTrunc (1377/10) = 137 ∧ round (1377/10 : Rat) = 138) := by
  have htr : ∀ q : Rat, 0 ≤ q → pyTrunc q = ⌊q⌋ := by
    intro q hq
    rw [pyTrunc, if_pos hq]
  refine ⟨?_, ?_, ?_, ?_, by norm_num, ?_, ?_⟩
  · rw [cmyk_to_rgb, validate_cmyk_ok hc hm hy hk]
    rfl
  · intro q hq
    refine ⟨htr q hq, ?_, ?_⟩
    · rw [htr q hq]; exact Int.floor_le q
    · rw [htr q hq]; exact_mod_cast Int.lt_floor_add_one q
  · rw [cmyk_to_rgb, validate_cmyk_ok (by norm_num) (by norm_num) (by norm_num) (by norm_num)]
    have : pyTrunc (255 * (1 - (0:Rat)) * (1 - 0)) = 255 := by
      rw [htr _ (by norm_num)]; norm_num
    simp only [pure, Except.pure]
    rw [this]
    rfl
  · rw [cmyk_to_rgb, validate_cmyk_ok (by norm_num) (by norm_num) (by norm_num) (by norm_num)]
    have : pyTrunc (255 * (1 - (1/10 : Rat)) * (1 - 2/5)) = 137 := by
      rw [htr _ (by norm_num)]
      norm_num [Int.floor_eq_iff]
    simp only [pure, Except.pure]
    rw [this]
    rfl
  · rw [htr _ (by norm_num)]
    norm_num [Int.floor_eq_iff]
  · rw [round_eq]
    norm_num [Int.floor_eq_iff]


/-- C7: rgb_to_cmyk returns exactly (0,0,0,1) at (0,0,0), so the division
by 1-k never runs on zero; otherwise k = min(1-r/255, 1-g/255, 1-b/255)
with c, m, y each (x-k)/(1-k) and 1-k nonzero; out-of-range inputs fail
with the range ValueError. -/
theorem rgb_to_cmyk_formula :
    rgb_to_cmyk 0 0 0 = Except.ok (0, 0, 0, 1)
    ∧ (∀ r g b : Int, 0 ≤ r ∧ r ≤ 255 → 0 ≤ g ∧ g ≤ 255 → 0 ≤ b ∧ b ≤ 255 →
        ¬(r = 0 ∧ g = 0 ∧ b = 0) →
        (1 : Rat) - min (1 - (r : Rat)/255) (min (1 - (g : Rat)/255) (1 - (b : Rat)/255)) ≠ 0
        ∧ rgb_to_cmyk r g b = Except.ok
          (((1 - (r : Rat)/255) - min (1 - (r : Rat)/255) (min (1 - (g : Rat)/255) (1 - (b : Rat)/255)))
              / (1 - min (1 - (r : Rat)/255) (min (1 - (g : Rat)/255) (1 - (b : Rat)/255))),
           ((1 - (g : Rat)/255) - min (1 - (r : Rat)/255) (min (1 - (g : Rat)/255) (1 - (b : Rat)/255)))
              / (1 - min (1 - (r : Rat)/255) (min (1 - (g : Rat)/255) (1 - (b : Rat)/255))),
           ((1 - (b : Rat)/255) - min (1 - (r : Rat)/255) (min (1 - (g : Rat)/255) (1 - (b : Rat)/255)))
              / (1 - min (1 - (r : Rat)/255) (min (1 - (g : Rat)/255) (1 - (b : Rat)/255))),
           min (1 - (r : Rat)/255) (min (1 - (g : Rat)/255) (1 - (b : Rat)/255))))
    ∧ (∀ r g b : Int, ¬(0 ≤ r ∧ r ≤ 255) ∨ ¬(0 ≤ g ∧ g ≤ 255) ∨ ¬(0 ≤ b ∧ b ≤ 255) →
        rgb_to_cmyk r g b = Except.error (PyErr.valueError
          "Invalid RGB code format. RGB values should be in the range 0-255. Example: 127, 128, 255.")) := by
  refine ⟨?_, ?_, ?_⟩
  · rw [rgb_to_cmyk, validate_rgb_ok (by omega) (by omega) (by omega)]
    rfl
  · intro r g b hr hg hb hnz
    have hkne : (1 : Rat) - min (1 - (r : Rat)/255) (min (1 - (g : Rat)/255) (1 - (b : Rat)/255)) ≠ 0 := by
      rcases (by omega : 0 < r ∨ 0 < g ∨ 0 < b) with h | h | h
      · have hx : (0 : Rat) < (r : Rat)/255 := by
          have : (0 : Rat) < (r : Rat) := by exact_mod_cast h
          positivity
        have hle := min_le_left (1 - (r : Rat)/255) (min (1 - (g : Rat)/255) (1 - (b : Rat)/255))
        intro hz
        have : min (1 - (r : Rat)/255) (min (1 - (g : Rat)/255) (1 - (b : Rat)/255)) = 1 := by linarith
        rw [this] at hle
        linarith
      · have hx : (0 : Rat) < (g : Rat)/255 := by
          have : (0 : Rat) < (g : Rat) := by exact_mod_cast h
          positivity
        have hle := le_trans (min_le_right (1 - (r : Rat)/255) (min (1 - (g : Rat)/255) (1 - (b : Rat)/255)))
          (min_le_left (1 - (g : Rat)/255) (1 - (b : Rat)/255))
        intro hz
        have : min (1 - (r : Rat)/255) (min (1 - (g : Rat)/255) (1 - (b : Rat)/255)) = 1 := by linarith
        rw [this] at hle
        linarith
      · have hx : (0 : Rat) < (b : Rat)/255 := by
          have : (0 : Rat) < (b : Rat) := by exact_mod_cast h
          positivity
        have hle := le_trans (min_le_right (1 - (r : Rat)/255) (min (1 - (g : Rat)/255) (1 - (b : Rat)/255)))
          (min_le_right (1 - (g : Rat)/255) (1 - (b : Rat)/255))
        intro hz
        have : min (1 - (r : Rat)/255) (min (1 - (g : Rat)/255) (1 - (b : Rat)/255)) = 1 := by linarith
        rw [this] at hle
        linarith
    refine ⟨hkne, ?_⟩
    rw [rgb_to_cmyk, validate_rgb_ok hr hg hb]
    simp only [hnz, if_false, pure, Except.pure, Except.bind]
    rfl
  · intro r g b hout
    rw [rgb_to_cmyk, validate_rgb]
    have : ([r, g, b].all fun x => decide (0 ≤ x ∧ x ≤ 255)) = false := by
      rcases hout with h | h | h <;> simp [List.all, h]
    rw [validate_range, if_neg (by rw [this]; exact Bool.false_ne_true)]
    rfl


/-- C3: for every syntactically valid standard-color ANSI input (nonempty
all-digit parameter body), ansi_to_rgb and ansi_to_hex raise the distinct
Warning signal, never a color; ansi_to_cmyk propagates the same signal;
and the Warning signal differs from every normal ValueError. -/
theorem ansi_standard_unsupported (body : Str) (h1 : body ≠ [])
    (h2 : ∀ c ∈ body, isDigitC c = true) :
    ansi_to_hex (escChar :: '[' :: body ++ ['m']) = Except.error
      (PyErr.warning "Converting ANSI to HEX for standard colors is not currently supported.")
    ∧ ansi_to_rgb (escChar :: '[' :: body ++ ['m']) = Except.error
      (PyErr.warning "Converting ANSI to RGB for standard colors is not currently supported.")
    ∧ ansi_to_cmyk (escChar :: '[' :: body ++ ['m']) = Except.error
      (PyErr.warning "Converting ANSI to CMYK for standard colors is not currently supported.")
    ∧ (∀ m1 m2 : String, PyErr.warning m1 ≠ PyErr.valueError m2) := by
  have hs38 : startsW ([escChar, '[', '3', '8', ';', '2', ';'])
      (escChar :: '[' :: body ++ ['m']) = false := by
    show (escChar == escChar && (('[' : Char) == '[') &&
      startsW ['3', '8', ';', '2', ';'] (body ++ ['m'])) = false
    rw [startsW_standard_false ['2', ';'] h2 (by decide) (by decide)]
    simp
  have hs48 : startsW ([escChar, '[', '4', '8', ';', '2', ';'])
      (escChar :: '[' :: body ++ ['m']) = false := by
    show (escChar == escChar && (('[' : Char) == '[') &&
      startsW ['4', '8', ';', '2', ';'] (body ++ ['m'])) = false
    rw [startsW_standard_false ['2', ';'] h2 (by decide) (by decide)]
    simp
  have hrgb : ansi_to_rgb (escChar :: '[' :: body ++ ['m']) = Except.error
      (PyErr.warning "Converting ANSI to RGB for standard colors is not currently supported.") := by
    rw [ansi_to_rgb, validate_ansi_digits h1 h2]
    show (if (startsW ([escChar, '[', '3', '8', ';', '2', ';']) (escChar :: '[' :: body ++ ['m']) ||
        startsW ([escChar, '[', '4', '8', ';', '2', ';']) (escChar :: '[' :: body ++ ['m'])) = true
      then _ else _) = _
    rw [hs38, hs48]
    rfl
  refine ⟨?_, hrgb, ?_, ?_⟩
  · rw [ansi_to_hex, validate_ansi_digits h1 h2]
    show (if (startsW ([escChar, '[', '3', '8', ';', '2', ';']) (escChar :: '[' :: body ++ ['m']) ||
        startsW ([escChar, '[', '4', '8', ';', '2', ';']) (escChar :: '[' :: body ++ ['m'])) = true
      then _ else _) = _
    rw [hs38, hs48]
    rfl
  · rw [ansi_to_cmyk, hrgb]
  · intro m1 m2 h
    cases h

/-- Witness for C5: the theorem applied at (0,0,0,0). -/
theorem cmyk_to_rgb_truncates_witness :
    cmyk_to_rgb 0 0 0 0 = Except.ok
      (pyTrunc (255 * (1 - 0) * (1 - 0)),
       pyTrunc (255 * (1 - 0) * (1 - 0)),
       pyTrunc (255 * (1 - 0) * (1 - 0))) :=
  (cmyk_to_rgb_truncates 0 0 0 0 (by simp) (by simp) (by simp) (by simp)).1

/-- Witness for C7: the general branch applied at (10,128,255) and the
error branch at (-1,0,0). -/
theorem rgb_to_cmyk_formula_witness :
    rgb_to_cmyk 10 128 255 = Except.ok
      (((1 - (10 : Rat)/255) - min (1 - (10 : Rat)/255) (min (1 - (128 : Rat)/255) (1 - (255 : Rat)/255)))
          / (1 - min (1 - (10 : Rat)/255) (min (1 - (128 : Rat)/255) (1 - (255 : Rat)/255))),
       ((1 - (128 : Rat)/255) - min (1 - (10 : Rat)/255) (min (1 - (128 : Rat)/255) (1 - (255 : Rat)/255)))
          / (1 - min (1 - (10 : Rat)/255) (min (1 - (128 : Rat)/255) (1 - (255 : Rat)/255))),
       ((1 - (255 : Rat)/255) - min (1 - (10 : Rat)/255) (min (1 - (128 : Rat)/255) (1 - (255 : Rat)/255)))
          / (1 - min (1 - (10 : Rat)/255) (min (1 - (128 : Rat)/255) (1 - (255 : Rat)/255))),
       min (1 - (10 : Rat)/255) (min (1 - (128 : Rat)/255) (1 - (255 : Rat)/255)))
    ∧ rgb_to_cmyk (-1) 0 0 = Except.error (PyErr.valueError
        "Invalid RGB code format. RGB values should be in the range 0-255. Example: 127, 128, 255.") :=
  ⟨(rgb_to_cmyk_formula.2.1 10 128 255 (by decide) (by decide) (by decide) (by decide)).2,
   rgb_to_cmyk_formula.2.2 (-1) 0 0 (Or.inl (by decide))⟩

/-- Witness for C3: the theorem applied to the body 107, the input ESC[107m. -/
theorem ansi_standard_unsupported_witness :
    ansi_to_hex (escChar :: '[' :: strOf "107" ++ ['m']) = Except.error
      (PyErr.warning "Converting ANSI to HEX for standard colors is not currently supported.") :=
  (ansi_standard_unsupported (strOf "107") (by decide) (by decide)).1

/-- C2: for r, g, b each in [0,255], hex_to_rgb(rgb_to_hex(r,g,b)) returns
exactly (r,g,b); and for every string of shape #RRGGBB with
case-insensitive hex digits, rgb_to_hex applied to the components of
hex_to_rgb(h) returns h converted to uppercase. -/
theorem hex_rgb_roundtrip :
    (∀ r g b : Int, 0 ≤ r ∧ r ≤ 255 → 0 ≤ g ∧ g ≤ 255 → 0 ≤ b ∧ b ≤ 255 →
      (rgb_to_hex r g b).bind hex_to_rgb = Except.ok (r, g, b))
    ∧ (∀ h : Str, hexShape h = true →
      (hex_to_rgb h).bind (fun t => rgb_to_hex t.1 t.2.1 t.2.2) = Except.ok (pyUpper h)) := by
  constructor
  · intro r g b hr hg hb
    have hrt : r.toNat < 256 := by omega
    have hgt : g.toNat < 256 := by omega
    have hbt : b.toNat < 256 := by omega
    rw [rgb_to_hex, validate_rgb_ok hr hg hb, pure_bind]
    rw [hexFmt2_lt256 hrt, hexFmt2_lt256 hgt, hexFmt2_lt256 hbt]
    have hsh : pyUpper ('#' :: ([hexDigitL (r.toNat / 16), hexDigitL (r.toNat % 16)] ++
        [hexDigitL (g.toNat / 16), hexDigitL (g.toNat % 16)] ++
        [hexDigitL (b.toNat / 16), hexDigitL (b.toNat % 16)])) =
        ['#', upperChar (hexDigitL (r.toNat / 16)), upperChar (hexDigitL (r.toNat % 16)),
          upperChar (hexDigitL (g.toNat / 16)), upperChar (hexDigitL (g.toNat % 16)),
          upperChar (hexDigitL (b.toNat / 16)), upperChar (hexDigitL (b.toNat % 16))] := by
      simp [pyUpper]
      decide
    rw [exceptBind_pure, hsh]
    have Fr1 := hexUp_facts_of (show r.toNat / 16 < 16 by omega)
    have Fr2 := hexUp_facts_of (show r.toNat % 16 < 16 by omega)
    have Fg1 := hexUp_facts_of (show g.toNat / 16 < 16 by omega)
    have Fg2 := hexUp_facts_of (show g.toNat % 16 < 16 by omega)
    have Fb1 := hexUp_facts_of (show b.toNat / 16 < 16 by omega)
    have Fb2 := hexUp_facts_of (show b.toNat % 16 < 16 by omega)
    rw [hex_to_rgb_sixdigits Fr1.1 Fr2.1 Fg1.1 Fg2.1 Fb1.1 Fb2.1]
    rw [Fr1.2, Fr2.2, Fg1.2, Fg2.2, Fb1.2, Fb2.2]
    have er : 16 * (r.toNat / 16) + r.toNat % 16 = r.toNat := by omega
    have eg : 16 * (g.toNat / 16) + g.toNat % 16 = g.toNat := by omega
    have eb : 16 * (b.toNat / 16) + b.toNat % 16 = b.toNat := by omega
    rw [er, eg, eb]
    have : ∀ x : Int, 0 ≤ x → ((x.toNat : Nat) : Int) = x := fun x hx => Int.toNat_of_nonneg hx
    rw [this r hr.1, this g hg.1, this b hb.1]
  · intro h hs
    match h with
    | [] => simp [hexShape] at hs
    | c0 :: rest =>
      simp only [hexShape, Bool.and_eq_true, beq_iff_eq, List.all_eq_true] at hs
      obtain ⟨⟨hc0, hlen⟩, hall⟩ := hs
      subst hc0
      match rest, hlen with
      | [c1, c2, c3, c4, c5, c6], _ =>
        have h1 := hall c1 (by simp)
        have h2 := hall c2 (by simp)
        have h3 := hall c3 (by simp)
        have h4 := hall c4 (by simp)
        have h5 := hall c5 (by simp)
        have h6 := hall c6 (by simp)
        rw [hex_to_rgb_sixdigits h1 h2 h3 h4 h5 h6]
        have hbo : ∀ v1 v2 v3 : Int,
            Except.bind (Except.ok (v1, v2, v3)) (fun t : Int × Int × Int =>
              rgb_to_hex t.1 t.2.1 t.2.2) = rgb_to_hex v1 v2 v3 := fun _ _ _ => rfl
        rw [hbo]
        have hv1 := hexVal_lt h1
        have hv2 := hexVal_lt h2
        have hv3 := hexVal_lt h3
        have hv4 := hexVal_lt h4
        have hv5 := hexVal_lt h5
        have hv6 := hexVal_lt h6
        rw [rgb_to_hex, validate_rgb_ok (by constructor <;> [positivity; exact_mod_cast (by omega : 16 * hexVal c1 + hexVal c2 ≤ 255)])
          (by constructor <;> [positivity; exact_mod_cast (by omega : 16 * hexVal c3 + hexVal c4 ≤ 255)])
          (by constructor <;> [positivity; exact_mod_cast (by omega : 16 * hexVal c5 + hexVal c6 ≤ 255)]),
          pure_bind]
        have t1 : ((16 * hexVal c1 + hexVal c2 : Nat) : Int).toNat = 16 * hexVal c1 + hexVal c2 := by omega
        have t2 : ((16 * hexVal c3 + hexVal c4 : Nat) : Int).toNat = 16 * hexVal c3 + hexVal c4 := by omega
        have t3 : ((16 * hexVal c5 + hexVal c6 : Nat) : Int).toNat = 16 * hexVal c5 + hexVal c6 := by omega
        rw [t1, t2, t3]
        rw [hexFmt2_lt256 (by omega), hexFmt2_lt256 (by omega), hexFmt2_lt256 (by omega)]
        have d1 : (16 * hexVal c1 + hexVal c2) / 16 = hexVal c1 := by omega
        have m1 : (16 * hexVal c1 + hexVal c2) % 16 = hexVal c2 := by omega
        have d2 : (16 * hexVal c3 + hexVal c4) / 16 = hexVal c3 := by omega
        have m2 : (16 * hexVal c3 + hexVal c4) % 16 = hexVal c4 := by omega
        have d3 : (16 * hexVal c5 + hexVal c6) / 16 = hexVal c5 := by omega
        have m3 : (16 * hexVal c5 + hexVal c6) % 16 = hexVal c6 := by omega
        rw [d1, m1, d2, m2, d3, m3]
        show Except.ok (pyUpper _) = Except.ok (pyUpper _)
        congr 1
        simp only [pyUpper, List.map]
        rw [upperHex_eq h1, upperHex_eq h2, upperHex_eq h3, upperHex_eq h4,
          upperHex_eq h5, upperHex_eq h6]



/-- Witness for C2: both round trips at concrete values. -/
theorem hex_rgb_roundtrip_witness :
    (rgb_to_hex 18 52 255).bind hex_to_rgb = Except.ok (18, 52, 255)
    ∧ (hex_to_rgb (strOf "#a0B1c2")).bind (fun t => rgb_to_hex t.1 t.2.1 t.2.2)
        = Except.ok (pyUpper (strOf "#a0B1c2")) :=
  ⟨hex_rgb_roundtrip.1 18 52 255 (by decide) (by decide) (by decide),
   hex_rgb_roundtrip.2 (strOf "#a0B1c2") (by decide)⟩

/-- C6: for every #RRGGBB hex code and either layer, ansi_to_rgb applied
to hex_to_ansi(h, layer, true_color=True) recovers exactly hex_to_rgb(h):
the true-color ANSI encoding round-trips the RGB triple on both layers. -/
theorem ansi_roundtrip_true_color (h : Str) (hs : hexShape h = true) (layer : Layer) :
    (hex_to_ansi h layer true).bind ansi_to_rgb = hex_to_rgb h := by
  match h with
  | [] => simp [hexShape] at hs
  | c0 :: rest =>
    simp only [hexShape, Bool.and_eq_true, beq_iff_eq, List.all_eq_true] at hs
    obtain ⟨⟨hc0, hlen⟩, hall⟩ := hs
    subst hc0
    match rest, hlen with
    | [c1, c2, c3, c4, c5, c6], _ =>
      have h1 := hall c1 (by simp)
      have h2 := hall c2 (by simp)
      have h3 := hall c3 (by simp)
      have h4 := hall c4 (by simp)
      have h5 := hall c5 (by simp)
      have h6 := hall c6 (by simp)
      rw [hex_to_rgb_sixdigits h1 h2 h3 h4 h5 h6]
      rw [hex_to_ansi, validate_hex_sixdigits h1 h2 h3 h4 h5 h6, pure_bind]
      rw [if_pos rfl]
      rw [hex_to_rgb_sixdigits h1 h2 h3 h4 h5 h6, bind_ok]
      show Except.bind (pure ([escChar, '['] ++ decNat layer.value ++ [';', '2', ';'] ++
        decInt ((16 * hexVal c1 + hexVal c2 : Nat) : Int) ++ [';'] ++
        decInt ((16 * hexVal c3 + hexVal c4 : Nat) : Int) ++ [';'] ++
        decInt ((16 * hexVal c5 + hexVal c6 : Nat) : Int) ++ ['m'])) ansi_to_rgb = _
      rw [exceptBind_pure]
      rw [decInt_ofNat, decInt_ofNat, decInt_ofNat]
      cases layer
      case Foreground =>
        rw [show decNat (Layer.Foreground.value) = ['3', '8'] from rfl]
        rw [show ([escChar, '['] ++ ['3', '8'] ++ [';', '2', ';'] ++
            decNat (16 * hexVal c1 + hexVal c2) ++ [';'] ++
            decNat (16 * hexVal c3 + hexVal c4) ++ [';'] ++
            decNat (16 * hexVal c5 + hexVal c6) ++ ['m'])
          = escChar :: '[' :: '3' :: '8' :: ';' :: '2' :: ';' ::
            (decNat (16 * hexVal c1 + hexVal c2) ++ ';' ::
              (decNat (16 * hexVal c3 + hexVal c4) ++ ';' ::
                (decNat (16 * hexVal c5 + hexVal c6) ++ ['m']))) by
          simp [List.append_assoc]]
        exact ansi_to_rgb_tc (Or.inl rfl) _ _ _
      case Background =>
        rw [show decNat (Layer.Background.value) = ['4', '8'] from rfl]
        rw [show ([escChar, '['] ++ ['4', '8'] ++ [';', '2', ';'] ++
            decNat (16 * hexVal c1 + hexVal c2) ++ [';'] ++
            decNat (16 * hexVal c3 + hexVal c4) ++ [';'] ++
            decNat (16 * hexVal c5 + hexVal c6) ++ ['m'])
          = escChar :: '[' :: '4' :: '8' :: ';' :: '2' :: ';' ::
            (decNat (16 * hexVal c1 + hexVal c2) ++ ';' ::
              (decNat (16 * hexVal c3 + hexVal c4) ++ ';' ::
                (decNat (16 * hexVal c5 + hexVal c6) ++ ['m']))) by
          simp [List.append_assoc]]
        exact ansi_to_rgb_tc (Or.inr rfl) _ _ _

/-- Witness for C6: the round trip at #1A2B3C on both layers. -/
theorem ansi_roundtrip_true_color_witness :
    (hex_to_ansi (strOf "#1A2b3C") Layer.Foreground true).bind ansi_to_rgb
        = hex_to_rgb (strOf "#1A2b3C")
    ∧ (hex_to_ansi (strOf "#1A2b3C") Layer.Background true).bind ansi_to_rgb
        = hex_to_rgb (strOf "#1A2b3C") :=
  ⟨ansi_roundtrip_true_color (strOf "#1A2b3C") (by decide) Layer.Foreground,
   ansi_roundtrip_true_color (strOf "#1A2b3C") (by decide) Layer.Background⟩

/-- C4: for every #RRGGBB hex code and layer, hex_to_ansi with
true_color=False picks, among the 16 fixed standard swatches in their
fixed order, the first one minimizing the Manhattan distance in RGB space
to the input, and emits ESC[<44+index+layer>m where layer is 38
(Foreground) or 48 (Background); in particular #FFFFFF maps to ESC[107m
on the background layer and ESC[97m on the foreground layer. -/
theorem hex_to_ansi_standard_nearest (h : Str) (hs : hexShape h = true) (layer : Layer) :
    (∃ pre chosen post,
      standardColors = pre ++ chosen :: post
      ∧ hex_to_ansi h layer false = Except.ok
          ([escChar, '['] ++ decNat (44 + pre.length + layer.value) ++ ['m'])
      ∧ (∀ s ∈ standardColors,
          specDist (lstripChar '#' h) chosen ≤ specDist (lstripChar '#' h) s)
      ∧ (∀ s ∈ pre, specDist (lstripChar '#' h) chosen < specDist (lstripChar '#' h) s))
    ∧ hex_to_ansi (strOf "#FFFFFF") Layer.Background false = Except.ok (strOf "\x1b[107m")
    ∧ hex_to_ansi (strOf "#FFFFFF") Layer.Foreground false = Except.ok (strOf "\x1b[97m") := by
  refine ⟨?_, by decide, by decide⟩
  match h with
  | [] => simp [hexShape] at hs
  | c0 :: rest =>
    simp only [hexShape, Bool.and_eq_true, beq_iff_eq, List.all_eq_true] at hs
    obtain ⟨⟨hc0, hlen⟩, hall⟩ := hs
    subst hc0
    match rest, hlen with
    | [c1, c2, c3, c4, c5, c6], _ =>
      have h1 := hall c1 (by simp)
      have hstrip : lstripChar '#' ('#' :: [c1, c2, c3, c4, c5, c6]) =
          [c1, c2, c3, c4, c5, c6] := by
        rw [lstripChar]
        rw [List.dropWhile_cons_of_pos (by simp)]
        exact List.dropWhile_cons_of_neg (by simp [hexdigit_ne_hash h1])
      obtain ⟨pre, chosen, post, hsplit, hcl, hmin, hstrict⟩ :=
        closest_spec [c1, c2, c3, c4, c5, c6] rfl
          (fun c hc => hall c (by simpa using hc))
      refine ⟨pre, chosen, post, hsplit, ?_, ?_, ?_⟩
      · rw [hex_to_ansi, validate_hex_sixdigits h1 (hall c2 (by simp)) (hall c3 (by simp))
          (hall c4 (by simp)) (hall c5 (by simp)) (hall c6 (by simp)), pure_bind]
        rw [if_neg (by simp)]
        rw [show lstripChar '#' ('#' :: [c1, c2, c3, c4, c5, c6]) =
          [c1, c2, c3, c4, c5, c6] from hstrip]
        rw [hcl]
        show Except.ok ([escChar, '['] ++ decNat (pre.length + 44 + layer.value) ++ ['m']) = _
        rw [show pre.length + 44 + layer.value = 44 + pre.length + layer.value by omega]
      · intro s hsm
        rw [hstrip]
        exact hmin s hsm
      · intro s hsm
        rw [hstrip]
        exact hstrict s hsm

/-- Witness for C4: the theorem applied to #FF0001 on the foreground layer. -/
theorem hex_to_ansi_standard_nearest_witness :
    ∃ pre chosen post,
      standardColors = pre ++ chosen :: post
      ∧ hex_to_ansi (strOf "#FF0001") Layer.Foreground false = Except.ok
          ([escChar, '['] ++ decNat (44 + pre.length + Layer.Foreground.value) ++ ['m'])
      ∧ (∀ s ∈ standardColors,
          specDist (lstripChar '#' (strOf "#FF0001")) chosen
            ≤ specDist (lstripChar '#' (strOf "#FF0001")) s)
      ∧ (∀ s ∈ pre, specDist (lstripChar '#' (strOf "#FF0001")) chosen
            < specDist (lstripChar '#' (strOf "#FF0001")) s) :=
  (hex_to_ansi_standard_nearest (strOf "#FF0001") (by decide) Layer.Foreground).1

/-- C9 amended: the ANSI validation gate accepts a string iff it has the
form ESC '[' body 'm' with body a nonempty string over [0-9;] whose
content is all digits or begins with 38;2; or 48;2; - or the same form
followed by exactly one trailing newline (admitted by the dollar anchor of
Python re.match), in which case the all-digit branch can never apply and
acceptance requires body to begin with 38;2; or 48;2;. Both regex
spellings in the source denote the same ESC control character. -/
theorem validate_ansi_characterization (s : Str) :
    validate_ansi s = pure () ↔
      ∃ body, body ≠ [] ∧ (∀ c ∈ body, digitOrSemi c = true)
        ∧ ((s = escChar :: '[' :: body ++ ['m']
              ∧ (body.all isDigitC = true
                 ∨ startsW (strOf "38;2;") body = true
                 ∨ startsW (strOf "48;2;") body = true))
           ∨ (s = escChar :: '[' :: body ++ ['m', '\n']
              ∧ (startsW (strOf "38;2;") body = true
                 ∨ startsW (strOf "48;2;") body = true))) := by
  constructor
  · intro hv
    cases hb : ansiRegexMatch s with
    | false =>
      rw [validate_ansi, hb] at hv
      simp [pure, Except.pure] at hv
    | true =>
      rw [validate_ansi, hb] at hv
      simp only [Bool.not_true, Bool.false_eq_true, if_false] at hv
      cases hnl : (s.getLast? == some '\n') with
      | false =>
        rw [ansiRegexMatch, hnl, if_neg (by simp)] at hb
        match s, hb, hv with
        | e :: br :: rest, hb, hv =>
          simp only [ansiShape, Bool.and_eq_true, beq_iff_eq, Bool.not_eq_true',
            List.all_eq_true] at hb
          obtain ⟨⟨⟨⟨he, hbr⟩, hlm⟩, hemp⟩, hallb⟩ := hb
          subst he
          subst hbr
          have hrest : rest.dropLast ++ ['m'] = rest :=
            List.dropLast_append_getLast? 'm' hlm
          have hbne : rest.dropLast ≠ [] := by
            intro h
            rw [h] at hemp
            simp at hemp
          obtain ⟨front, d, hfd⟩ : ∃ front d, rest.dropLast = front ++ [d] := by
            rcases List.eq_nil_or_concat rest.dropLast with h | ⟨front, d, h⟩
            · exact absurd h hbne
            · exact ⟨front, d, by simpa [List.concat_eq_append] using h⟩
          have hdm : rest.dropLast.getLast? = some d := by
            rw [hfd]
            exact List.getLast?_concat front
          have hdd : digitOrSemi d = true := hallb d (by rw [hfd]; simp)
          have hdrop : (escChar :: '[' :: rest).drop 2 = rest := rfl
          have hcode : rstripChar 'm' rest = rest.dropLast := by
            conv_lhs => rw [← hrest]
            exact rstrip_concat hdm (digitOrSemi_ne_m hdd)
          rw [hdrop, hcode] at hv
          have hs2 : (escChar :: '[' :: rest : Str)
              = escChar :: '[' :: rest.dropLast ++ ['m'] := by
            show _ = escChar :: '[' :: (rest.dropLast ++ ['m'])
            rw [hrest]
          refine ⟨rest.dropLast, hbne, hallb, Or.inl ⟨hs2, ?_⟩⟩
          cases h38v : startsW (strOf "38;2;") rest.dropLast with
          | true => exact Or.inr (Or.inl rfl)
          | false =>
            cases h48v : startsW (strOf "48;2;") rest.dropLast with
            | true => exact Or.inr (Or.inr rfl)
            | false =>
              cases hdv : rest.dropLast.all isDigitC with
              | true => exact Or.inl rfl
              | false =>
                rw [if_pos (by rw [h38v, h48v, hdv, hemp]; rfl)] at hv
                simp [pure, Except.pure] at hv
      | true =>
        rw [ansiRegexMatch, hnl, if_pos rfl] at hb
        have hsl : s.getLast? = some '\n' := by
          have := hnl
          simp only [beq_iff_eq] at this
          exact this
        have hsplit : s.dropLast ++ ['\n'] = s :=
          List.dropLast_append_getLast? '\n' hsl
        match hsd : s.dropLast, hb with
        | e :: br :: rest, hb =>
          simp only [ansiShape, Bool.and_eq_true, beq_iff_eq, Bool.not_eq_true',
            List.all_eq_true] at hb
          obtain ⟨⟨⟨⟨he, hbr⟩, hlm⟩, hemp⟩, hallb⟩ := hb
          subst he
          subst hbr
          have hrest : rest.dropLast ++ ['m'] = rest :=
            List.dropLast_append_getLast? 'm' hlm
          have hbne : rest.dropLast ≠ [] := by
            intro h
            rw [h] at hemp
            simp at hemp
          have hsingle : (['m', '\n'] : Str) = ['m'] ++ ['\n'] := rfl
          have hs3 : s = escChar :: '[' :: rest.dropLast ++ ['m', '\n'] := by
            rw [← hsplit, hsd, hsingle, ← List.append_assoc]
            rw [show (escChar :: '[' :: rest.dropLast ++ ['m'] : Str)
              = escChar :: '[' :: (rest.dropLast ++ ['m']) from rfl, hrest]
          rw [hs3] at hv
          have hdrop : (escChar :: '[' :: rest.dropLast ++ ['m', '\n']).drop 2
              = rest.dropLast ++ ['m', '\n'] := rfl
          have hlst : (rest.dropLast ++ ['m', '\n']).getLast? = some '\n' := by
            rw [hsingle, ← List.append_assoc]
            exact List.getLast?_concat _
          have hcode : rstripChar 'm' (rest.dropLast ++ ['m', '\n'])
              = rest.dropLast ++ ['m', '\n'] :=
            rstrip_of_last_ne hlst (by decide)
          rw [hdrop, hcode] at hv
          have e38 : strOf "38;2;" = ['3', '8', ';', '2', ';'] := rfl
          have e48 : strOf "48;2;" = ['4', '8', ';', '2', ';'] := rfl
          have h38 := startsW_mn '3' '8' ';' '2' ';'
            (by decide) (by decide) (by decide) (by decide) (by decide) rest.dropLast
          have h48 := startsW_mn '4' '8' ';' '2' ';'
            (by decide) (by decide) (by decide) (by decide) (by decide) rest.dropLast
          have hdv : (rest.dropLast ++ ['m', '\n']).all isDigitC = false := by
            cases hx : (rest.dropLast ++ ['m', '\n']).all isDigitC with
            | false => rfl
            | true =>
              have := List.all_eq_true.mp hx 'm' (by simp)
              simp [isDigitC] at this
          refine ⟨rest.dropLast, hbne, hallb, Or.inr ⟨hs3, ?_⟩⟩
          cases h38v : startsW (strOf "38;2;") rest.dropLast with
          | true => exact Or.inl rfl
          | false =>
            cases h48v : startsW (strOf "48;2;") rest.dropLast with
            | true => exact Or.inr rfl
            | false =>
              rw [e38] at h38v
              rw [e48] at h48v
              rw [if_pos (by
                rw [e38, e48, h38, h48, h38v, h48v, hdv]
                simp)] at hv
              simp [pure, Except.pure] at hv
  · intro hex
    obtain ⟨body, hne, hall, hcase⟩ := hex
    rcases hcase with ⟨hs, hcond⟩ | ⟨hs, hcond⟩
    · rw [hs]
      exact validate_ansi_core hne hall hcond
    · rw [hs]
      exact validate_ansi_core_nl hne hall hcond

/-- C9 counterexample: the gate accepts ESC[38;2;0;0;0m followed by a
newline, which does not match the shape ESC [ [0-9;]+ m claimed to be
necessary, because the dollar anchor of re.match also matches just before
one final newline. -/
theorem validate_ansi_claim_counterexample :
    validate_ansi (strOf "\x1b[38;2;0;0;0m\n") = pure ()
    ∧ claimAccepts (strOf "\x1b[38;2;0;0;0m\n") = false := by
  constructor <;> decide

/-- C1: in rule-table mode the rules are evaluated in lexicographic order
of their (uppercased, as stored) names, independent of insertion order:
permuting the table does not change the output, the evaluation equals a
fold of first-match rule application over the name-sorted entries (within
each rule the keywords are tried in list order and the first match applies
the style and skips the rest, with later rules seeing the restyled
message), the sorted traversal is ordered and a permutation of the table,
and add_mapping stores names uppercased. -/
theorem rule_table_evaluation (search : Bool → Str → Str → Bool)
    (subAll : Bool → Str → (Str → Str) → Str → Str) (msg : Str) (M M2 : ColorMapper)
    (hperm : M.mappings.Perm M2.mappings)
    (hnd : (M.mappings.map Prod.fst).Nodup) :
    get_colorized_message_by_mappings search subAll msg M
      = get_colorized_message_by_mappings search subAll msg M2
    ∧ get_colorized_message_by_mappings search subAll msg M
      = (get_mappings M).foldl (fun cur e => applyRuleFirstMatch search subAll e cur) msg
    ∧ List.Sorted nameLe (get_mappings M)
    ∧ (get_mappings M).Perm M.mappings
    ∧ (∀ name kws cm fl,
        ((add_mapping ⟨[]⟩ name kws cm fl).mappings.map Prod.fst) = [pyUpper name]) := by
  refine ⟨?_, ?_, getMappings_sorted M, getMappings_perm M, ?_⟩
  · rw [get_colorized_message_by_mappings, get_colorized_message_by_mappings,
      getMappings_eq_of_perm hperm hnd]
  · rw [get_colorized_message_by_mappings]
    exact foldl_scan_eq_firstMatch search subAll (get_mappings M) msg
  · intro name kws cm fl
    rfl

/-- C10: in rule-table mode a matched rule appends the reset ESC[0m
unconditionally, even when every style field is absent and the style
sequence is empty, unlike plain mode which emits no reset without style;
with color_match the reset is likewise appended to every replacement. -/
theorem mapped_rule_unconditional_reset (search : Bool → Str → Str → Bool)
    (subAll : Bool → Str → (Str → Str) → Str → Str)
    (msg name kw : Str) (tcase : Nat) (ic : Bool)
    (hm : search ic kw msg = true) :
    get_colorized_message_by_mappings search subAll msg
        ⟨[(name, ⟨[kw], ⟨none, none, none, tcase⟩, ⟨ic, false⟩⟩)]⟩
      = TextCase.convert_text msg tcase ++ resetSeq
    ∧ get_colorize_sequence none none none = []
    ∧ get_colorized_message msg none none none tcase = TextCase.convert_text msg tcase
    ∧ get_colorized_message_by_mappings search subAll msg
        ⟨[(name, ⟨[kw], ⟨none, none, none, tcase⟩, ⟨ic, true⟩⟩)]⟩
      = subAll ic kw (fun mt => TextCase.convert_text mt tcase ++ resetSeq) msg := by
  have hsingle : ∀ (m : Mapping),
      get_mappings ⟨[(name, m)]⟩ = [(name, m)] := fun _ => rfl
  refine ⟨?_, rfl, ?_, ?_⟩
  · rw [get_colorized_message_by_mappings, hsingle, List.foldl_cons, List.foldl_nil]
    show scanKeywords search subAll _ msg [kw] = _
    rw [scanKeywords]
    cases ic with
    | true =>
      rw [if_pos rfl, if_pos hm]
      rfl
    | false =>
      rw [if_neg (by simp), if_pos hm]
      rfl
  · rw [get_colorized_message, if_pos ⟨rfl, rfl, rfl⟩]
  · rw [get_colorized_message_by_mappings, hsingle, List.foldl_cons, List.foldl_nil]
    show scanKeywords search subAll _ msg [kw] = _
    rw [scanKeywords]
    cases ic with
    | true =>
      rw [if_pos rfl, if_pos hm]
      rfl
    | false =>
      rw [if_neg (by simp), if_pos hm]
      rfl


/-- Witness for C1: two tables holding the same two rules in opposite
insertion orders color the same message identically. -/
theorem rule_table_evaluation_witness :
    get_colorized_message_by_mappings (fun _ p s => hasSubstr p s) (fun _ _ f s => f s)
        (strOf "alpha beta")
        ⟨[(strOf "B", ⟨[strOf "beta"], ⟨none, none, none, TextCase.ALL_CAPS⟩, ⟨false, false⟩⟩),
          (strOf "A", ⟨[strOf "alpha"], ⟨none, none, none, TextCase.NONE⟩, ⟨false, false⟩⟩)]⟩
      = get_colorized_message_by_mappings (fun _ p s => hasSubstr p s) (fun _ _ f s => f s)
        (strOf "alpha beta")
        ⟨[(strOf "A", ⟨[strOf "alpha"], ⟨none, none, none, TextCase.NONE⟩, ⟨false, false⟩⟩),
          (strOf "B", ⟨[strOf "beta"], ⟨none, none, none, TextCase.ALL_CAPS⟩, ⟨false, false⟩⟩)]⟩ :=
  (rule_table_evaluation (fun _ p s => hasSubstr p s) (fun _ _ f s => f s)
    (strOf "alpha beta") _ _ (by decide) (by decide)).1

/-- Witness for C10: a matched rule with an empty style still appends the
reset, while plain mode with no style does not. -/
theorem mapped_rule_unconditional_reset_witness :
    get_colorized_message_by_mappings (fun _ p s => hasSubstr p s) (fun _ _ f s => f s)
        (strOf "an error")
        ⟨[(strOf "RULE", ⟨[strOf "err"], ⟨none, none, none, TextCase.NONE⟩, ⟨false, false⟩⟩)]⟩
      = TextCase.convert_text (strOf "an error") TextCase.NONE ++ resetSeq
    ∧ get_colorized_message (strOf "an error") none none none TextCase.NONE
      = TextCase.convert_text (strOf "an error") TextCase.NONE :=
  ⟨(mapped_rule_unconditional_reset (fun _ p s => hasSubstr p s) (fun _ _ f s => f s)
      (strOf "an error") (strOf "RULE") (strOf "err") TextCase.NONE false (by decide)).1,
   (mapped_rule_unconditional_reset (fun _ p s => hasSubstr p s) (fun _ _ f s => f s)
      (strOf "an error") (strOf "RULE") (strOf "err") TextCase.NONE false (by decide)).2.2.1⟩

end PyColorEcho
